import Mathlib

/-!
Verification of the mark-compact garbage collector (`src/heap/mark-compact.cc`)
against its natural-language specification.

The development shallowly embeds the collector's algorithms: objects, slots and
pages are identified by natural numbers, the tri-color mark bitmap is a function
from object id to `Color`, worklists are lists, and each C++ function under
scrutiny is translated into an executable Lean function that mirrors its
control flow.  Concurrency is sequentialized: the C++ code runs these loops on
a single main thread interleaved with workers operating on disjoint data, and
every claim below concerns the sequential semantics of one such loop.
-/

namespace V8MC

/-- Tri-color mark state of a heap object: `00` White, `10` Grey, `11` Black. -/
inductive Color where
  | White
  | Grey
  | Black
deriving DecidableEq

/-- `MarkingState::IsBlackOrGrey`. -/
def isBlackOrGrey (c : Color) : Bool :=
  match c with
  | Color.Black => true
  | Color.Grey => true
  | Color.White => false

/-- `MarkingState::IsWhite`. -/
def isWhite (c : Color) : Bool :=
  match c with
  | Color.White => true
  | _ => false

/-- `MarkingState::IsBlack`. -/
def isBlack (c : Color) : Bool :=
  match c with
  | Color.Black => true
  | _ => false

/-- Point update of a color map. -/
def setColor (f : Nat → Color) (o : Nat) (c : Color) : Nat → Color :=
  fun x => if x = o then c else f x

/-- An ephemeron: a (key, value) pair whose value is reachable iff the key is
reachable. -/
structure Ephemeron where
  key : Nat
  value : Nat
deriving DecidableEq

/-! ## Marking worklist machinery

`HeapModel` abstracts the object graph the marking visitor walks: a finite
universe of objects, the strong out-edges the map's visitor descriptor
enumerates, the filler predicate, and object sizes. -/

structure HeapModel where
  objects : List Nat
  fields : Nat → List Nat
  isFiller : Nat → Bool
  size : Nat → Nat

/-- Every visited edge stays inside the object universe. -/
def HeapModel.WellFormed (heap : HeapModel) : Prop :=
  ∀ o t, t ∈ heap.fields o → t ∈ heap.objects

/-- The main thread's marking state: the tri-color map, the local marking
worklist and its on-hold stash, and the `next_ephemerons` worklist. -/
structure MarkerState where
  color : Nat → Color
  worklist : List Nat
  onHold : List Nat
  nextEphemerons : List Ephemeron

/-- `MarkCompactCollectorBase::MarkObject` / the visitor's slot handling:
a White target is transitioned White-to-Grey and pushed onto the marking
worklist; any other color is left alone. -/
def markObject (st : MarkerState) (t : Nat) : MarkerState :=
  if st.color t = Color.White then
    { st with color := setColor st.color t Color.Grey,
              worklist := t :: st.worklist }
  else st

/-- One visit of a popped object: the object goes Grey-to-Black and each
strong field target is marked. -/
def visitObject (heap : HeapModel) (st : MarkerState) (o : Nat) : MarkerState :=
  (heap.fields o).foldl markObject
    { st with color := setColor st.color o Color.Black }

/-- `local_marking_worklists()->Pop(&object) ||
local_marking_worklists()->PopOnHold(&object)`. -/
def popWorklist (st : MarkerState) : Option (Nat × MarkerState) :=
  match st.worklist with
  | o :: rest => some (o, { st with worklist := rest })
  | [] =>
    match st.onHold with
    | o :: rest => some (o, { st with onHold := rest })
    | [] => none

/-- `MarkCompactCollector::ProcessMarkingWorklist(bytes_to_process)`
(mark-compact.cc, lines 2214-2271), with explicit recursion fuel: pop from the
worklist or the on-hold stash until both are empty; skip free-space/filler
pseudo-objects; otherwise visit the object and account its size; stop early
only when `bytes_to_process` is non-zero and the processed bytes reached it.
Returns the state and the `(bytes_processed, objects_processed)` pair. -/
def processMarkingWorklist (heap : HeapModel) (bytesToProcess : Nat) :
    Nat → MarkerState → Nat → Nat → MarkerState × Nat × Nat
  | 0, st, bytes, objs => (st, bytes, objs)
  | fuel + 1, st, bytes, objs =>
    match popWorklist st with
    | none => (st, bytes, objs)
    | some (o, st1) =>
      if heap.isFiller o then
        processMarkingWorklist heap bytesToProcess fuel st1 bytes objs
      else
        let st2 := visitObject heap st1 o
        let bytes2 := bytes + heap.size o
        if bytesToProcess ≠ 0 ∧ bytesToProcess ≤ bytes2 then (st2, bytes2, objs + 1)
        else processMarkingWorklist heap bytesToProcess fuel st2 bytes2 (objs + 1)

/-- `MarkCompactCollector::DrainMarkingWorklist` (mark-compact.cc, line 2212):
`ProcessMarkingWorklist(0)`. -/
def drainMarkingWorklist (heap : HeapModel) (fuel : Nat) (st : MarkerState) :
    MarkerState × Nat × Nat :=
  processMarkingWorklist heap 0 fuel st 0 0

/-- Number of White objects of the universe. -/
def countWhite (heap : HeapModel) (c : Nat → Color) : Nat :=
  heap.objects.countP (fun o => c o == Color.White)

/-- Termination measure of the marking drain: every processed item removes one
queue entry and every queue insertion greys a White object for good. -/
def markingMeasure (heap : HeapModel) (st : MarkerState) : Nat :=
  st.worklist.length + st.onHold.length + 2 * countWhite heap st.color

/-! ## `MarkCompactCollector::ProcessEphemeron` and the fixpoint -/

/-- `MarkCompactCollector::ProcessEphemeron(key, value)` (mark-compact.cc,
lines 2281-2292): if the key is Black or Grey the value is White-to-Grey
transitioned and pushed (returning `true` exactly when it was still White);
otherwise, if the value is White, the pair is re-enqueued onto
`next_ephemerons`. -/
def processEphemeron (st : MarkerState) (key value : Nat) : MarkerState × Bool :=
  if isBlackOrGrey (st.color key) then
    if st.color value = Color.White then
      ({ st with color := setColor st.color value Color.Grey,
                 worklist := value :: st.worklist }, true)
    else (st, false)
  else
    if st.color value = Color.White then
      ({ st with nextEphemerons := st.nextEphemerons ++ [⟨key, value⟩] }, false)
    else (st, false)

/-- The `current_ephemerons` drain of `MarkCompactCollector::ProcessEphemerons`
(mark-compact.cc, lines 2067-2073): pop each ephemeron, apply
`ProcessEphemeron`, and OR the "marked something" flags. -/
def drainCurrentEphemerons : List Ephemeron → MarkerState → MarkerState × Bool
  | [], st => (st, false)
  | e :: rest, st =>
    let r := processEphemeron st e.key e.value
    let r2 := drainCurrentEphemerons rest r.1
    (r2.1, r.2 || r2.2)

/-- One round of `MarkTransitiveClosureUntilFixpoint` (mark-compact.cc, lines
2027-2058), indexed by the remaining iteration budget
(`max_iterations - iterations`): give up (`false`) when the budget is
exhausted; otherwise swap `next_ephemerons` into `current_ephemerons`, drain
them, drain the marking worklist, and iterate while anything was marked or the
worklist is non-empty.  The model is single-threaded, so the concurrent
marker's flag and the embedder's wrapper tracing are absent, and all
ephemerons are taken as published into `next_ephemerons` up front (in the
source, ephemerons first discovered during the drain travel through
`discovered_ephemerons` and are handled by the same `ProcessEphemeron`
rule). -/
def fixpointLoop (heap : HeapModel) (fuel : Nat) :
    Nat → MarkerState → MarkerState × Bool
  | 0, _st => (_st, false)
  | remaining + 1, st =>
    let current := st.nextEphemerons
    let st1 : MarkerState := { st with nextEphemerons := [] }
    let r1 := drainCurrentEphemerons current st1
    let r2 := processMarkingWorklist heap 0 fuel r1.1 0 0
    let another := r1.2 || decide (0 < r2.2.2)
    if another || !(r2.1.worklist.isEmpty && r2.1.onHold.isEmpty) then
      fixpointLoop heap fuel remaining r2.1
    else (r2.1, true)

/-- `MarkCompactCollector::MarkTransitiveClosureUntilFixpoint` (mark-compact.cc,
lines 2021-2061), with `max_iterations = FLAG_ephemeron_fixpoint_iterations`. -/
def markTransitiveClosureUntilFixpoint (heap : HeapModel)
    (maxIterations fuel : Nat) (st : MarkerState) : MarkerState × Bool :=
  fixpointLoop heap fuel maxIterations st

/-- `EphemeronMarking`: the bounded newly-discovered buffer of the linear
algorithm. -/
structure EphemeronMarking where
  newlyDiscovered : List Nat
  newlyDiscoveredOverflowed : Bool
  newlyDiscoveredLimit : Nat

/-- Modelled from the spec: `AddNewlyDiscovered` is declared in mark-compact.h,
which is not part of this repository snapshot; the spec says the linear
algorithm "track[s] newly discovered objects in a bounded buffer" and falls
back conservatively "on overflow of the newly-discovered buffer". -/
def addNewlyDiscovered (em : EphemeronMarking) (o : Nat) : EphemeronMarking :=
  if em.newlyDiscovered.length < em.newlyDiscoveredLimit then
    { em with newlyDiscovered := em.newlyDiscovered ++ [o] }
  else { em with newlyDiscoveredOverflowed := true }

/-- `ProcessMarkingWorklist<kTrackNewlyDiscoveredObjects>(0)`: the drain used
by the linear algorithm, which additionally records every visited object in
the newly-discovered buffer. -/
def processMarkingWorklistTrack (heap : HeapModel) :
    Nat → MarkerState → EphemeronMarking → MarkerState × EphemeronMarking
  | 0, st, em => (st, em)
  | fuel + 1, st, em =>
    match popWorklist st with
    | none => (st, em)
    | some (o, st1) =>
      if heap.isFiller o then processMarkingWorklistTrack heap fuel st1 em
      else
        processMarkingWorklistTrack heap fuel (visitObject heap st1 o)
          (addNewlyDiscovered em o)

/-- The iteration of `MarkCompactCollector::MarkTransitiveClosureLinear`
(mark-compact.cc, lines 2120-2179): drain the worklist tracking newly
discovered objects; on overflow conservatively visit every pending ephemeron
in `next_ephemerons`, otherwise eagerly mark the ephemeron values of each
newly discovered key; repeat while the worklist is non-empty. -/
def linearLoop (heap : HeapModel) (keyToValues : List Ephemeron) :
    Nat → MarkerState → MarkerState
  | 0, st => st
  | fuel + 1, st =>
    let r := processMarkingWorklistTrack heap fuel st
      ⟨[], false, keyToValues.length⟩
    let st2 :=
      if r.2.newlyDiscoveredOverflowed then
        r.1.nextEphemerons.foldl
          (fun s e =>
            if isBlackOrGrey (s.color e.key) ∧ s.color e.value = Color.White then
              { s with color := setColor s.color e.value Color.Grey,
                       worklist := e.value :: s.worklist }
            else s)
          r.1
      else
        r.2.newlyDiscovered.foldl
          (fun s o =>
            (keyToValues.filter (fun e => e.key == o)).foldl
              (fun s2 e => markObject s2 e.value) s)
          r.1
    if st2.worklist.isEmpty && st2.onHold.isEmpty then st2
    else linearLoop heap keyToValues fuel st2

/-- `MarkCompactCollector::MarkTransitiveClosureLinear` (mark-compact.cc,
lines 2101-2191): swap `next_ephemerons` into `current_ephemerons`, drain them
once recording the pairs whose value is still White into the `key_to_values`
multimap, then run the tracked iteration. -/
def markTransitiveClosureLinear (heap : HeapModel) (fuel : Nat)
    (st : MarkerState) : MarkerState :=
  let current := st.nextEphemerons
  let st1 : MarkerState := { st with nextEphemerons := [] }
  let init := current.foldl
    (fun (acc : MarkerState × List Ephemeron) e =>
      let r := processEphemeron acc.1 e.key e.value
      if r.1.color e.value = Color.White then (r.1, acc.2 ++ [e])
      else (r.1, acc.2))
    (st1, [])
  linearLoop heap init.2 fuel init.1

/-- `MarkCompactCollector::MarkTransitiveClosure` (mark-compact.cc, lines
2309-2319): run the fixpoint iteration; when it gives up, fall back to the
guaranteed linear algorithm.  The boolean records which algorithm completed
marking. -/
def markTransitiveClosure (heap : HeapModel) (maxIterations fuel : Nat)
    (st : MarkerState) : MarkerState × Bool :=
  let r := markTransitiveClosureUntilFixpoint heap maxIterations fuel st
  if r.2 then (r.1, true)
  else (markTransitiveClosureLinear heap fuel r.1, false)

/-- C1 invariant: every ephemeron is either still queued on `next_ephemerons`
or has a marked value. -/
def ValueMarkedOrQueued (ephs : List Ephemeron) (st : MarkerState) : Prop :=
  ∀ e ∈ ephs, e ∈ st.nextEphemerons ∨ isBlackOrGrey (st.color e.value) = true

/-- C1 invariant: every Grey non-filler object is still queued for
processing. -/
def GreyImpliesQueued (heap : HeapModel) (st : MarkerState) : Prop :=
  ∀ o, heap.isFiller o = false → st.color o = Color.Grey →
    o ∈ st.worklist ∨ o ∈ st.onHold

/-- Color progression order: marking only advances White → Grey → Black. -/
def colorRank : Color → Nat
  | Color.White => 0
  | Color.Grey => 1
  | Color.Black => 2

/-- Pointwise color monotonicity between two marker states. -/
def ColorMono (a b : MarkerState) : Prop :=
  ∀ x, colorRank (a.color x) ≤ colorRank (b.color x)

/-! ## Pointer updating after evacuation

`UpdateSlot` / `PointersUpdatingVisitor` / the OLD_TO_OLD part of
`RememberedSetUpdatingItem::UpdateUntypedPointers`. -/

/-- A map word: either a plain map pointer or a forwarding address
(`MapWord::IsForwardingAddress`). -/
inductive MapWordM where
  | map (m : Nat)
  | forwardingAddress (target : Nat)
deriving DecidableEq

/-- `MapWord::IsForwardingAddress`. -/
def MapWordM.isForwardingAddress : MapWordM → Bool
  | MapWordM.forwardingAddress _ => true
  | MapWordM.map _ => false

/-- The heap as the pointer-update phase sees it: each object's map word and
each (strong, tagged) slot's referent.  Objects and slots are identified by
numbers. -/
structure UpdateHeap where
  mapWord : Nat → MapWordM
  slotValue : Nat → Nat

/-- `UpdateSlot` (mark-compact.cc, lines 3231-3266): read the referent's map
word; when it is a forwarding address, store the forwarded address into the
slot (relaxed store); otherwise leave the slot alone. -/
def updateSlot (h : UpdateHeap) (s : Nat) : UpdateHeap :=
  match h.mapWord (h.slotValue s) with
  | MapWordM.forwardingAddress target =>
    { h with slotValue := fun x => if x = s then target else h.slotValue x }
  | MapWordM.map _ => h

/-- A memory chunk's OLD_TO_OLD slot set; `none` is a released
(`ReleaseSlotSet<OLD_TO_OLD>`) or never-allocated set. -/
structure ChunkM where
  oldToOld : Option (List Nat)
deriving DecidableEq

/-- The slots recorded in the chunk's OLD_TO_OLD slot set. -/
def chunkSlots (c : ChunkM) : List Nat :=
  match c.oldToOld with
  | some slots => slots
  | none => []

/-- Whether a slot is recorded in the chunk's OLD_TO_OLD slot set. -/
def slotRecorded (c : ChunkM) (s : Nat) : Bool :=
  decide (s ∈ chunkSlots c)

/-- The filtered update loop shared by the root walk (every slot) and the
remembered-set walk (`InvalidatedSlotsFilter::IsValid`). -/
def updateSlots (valid : Nat → Bool) (slots : List Nat) (h : UpdateHeap) :
    UpdateHeap :=
  slots.foldl (fun h2 s => if valid s then updateSlot h2 s else h2) h

/-- The OLD_TO_OLD branch of `RememberedSetUpdatingItem::UpdateUntypedPointers`
(mark-compact.cc, lines 4444-4460) in updating mode `ALL` (the full
collector's mode): iterate the recorded slots through the invalidated-slots
filter, update each valid one, and release the slot set after iteration. -/
def updateUntypedPointersOldToOld (valid : Nat → Bool) (h : UpdateHeap)
    (c : ChunkM) : UpdateHeap × ChunkM :=
  match c.oldToOld with
  | none => (h, c)
  | some slots => (updateSlots valid slots h, ⟨none⟩)

/-- The remembered-set updating items of `UpdatePointersAfterEvacuation` over
every chunk. -/
def updateChunks (valid : Nat → Bool) :
    List ChunkM → UpdateHeap → UpdateHeap × List ChunkM
  | [], h => (h, [])
  | c :: rest, h =>
    let r := updateUntypedPointersOldToOld valid h c
    let r2 := updateChunks valid rest r.1
    (r2.1, r.2 :: r2.2)

/-- `MarkCompactCollector::UpdatePointersAfterEvacuation` (mark-compact.cc,
lines 4654-4722), restricted to strong untyped slots: first the
`PointersUpdatingVisitor` root walk (every root slot is updated), then the
parallel remembered-set items. -/
def updatePointersAfterEvacuation (rootSlots : List Nat) (valid : Nat → Bool)
    (chunks : List ChunkM) (h : UpdateHeap) : UpdateHeap × List ChunkM :=
  updateChunks valid chunks (updateSlots (fun _ => true) rootSlots h)

/-- A slot is "good" when reading its referent's map word does not observe a
forwarding address. -/
def GoodSlot (h : UpdateHeap) (s : Nat) : Prop :=
  (h.mapWord (h.slotValue s)).isForwardingAddress = false

/-- The forwarding target of a slot's referent is itself not forwarded: the
embedding of `DCHECK(!MarkCompactCollector::IsOnEvacuationCandidate(target))`
(mark-compact.cc, line 3261) — evacuation never forwards to an evacuation
candidate. -/
def mapWordTargetOk (h : UpdateHeap) (s : Nat) : Bool :=
  match h.mapWord (h.slotValue s) with
  | MapWordM.forwardingAddress t => !(h.mapWord t).isForwardingAddress
  | MapWordM.map _ => true

/-- Update-phase invariant relative to the pre-update heap `h0`: map words
are untouched and every slot either still holds its original referent or has
been rewritten through the original referent's forwarding address. -/
def UpdateInv (h0 h : UpdateHeap) : Prop :=
  h.mapWord = h0.mapWord ∧
    ∀ s, h.slotValue s = h0.slotValue s ∨
      ∃ t, h0.mapWord (h0.slotValue s) = MapWordM.forwardingAddress t ∧
        h.slotValue s = t

/-! ## Aborted old-to-old evacuation (`ReRecordPage` and the recovery path) -/

/-- An old-space evacuation-candidate page as the abort path sees it:
addresses, the objects still marked Black (address, size), the recorded
OLD_TO_NEW / OLD_TO_SHARED slot addresses, the live-byte counter and the two
flags involved. -/
structure AbortPage where
  id : Nat
  pageAddress : Nat
  areaStart : Nat
  liveObjects : List (Nat × Nat)
  oldToNew : List Nat
  oldToShared : List Nat
  liveBytes : Nat
  evacuationCandidate : Bool
  compactionAborted : Bool
deriving DecidableEq

/-- Total size of a list of (address, size) objects. -/
def sumSizes (objs : List (Nat × Nat)) : Nat := (objs.map Prod.snd).sum

/-- `ReRecordPage` (mark-compact.cc, lines 4793-4830): flag the page
`COMPACTION_WAS_ABORTED`; remove the recorded OLD_TO_NEW and OLD_TO_SHARED
slots in `[page->address(), failed_start)` (the successfully copied prefix's
slots are discarded); recompute the live bytes from the mark bitmap; and
re-record slots by walking the remaining black objects with the record-only
visitor.  `recordNew` / `recordShared` give the slots the
`RecordMigratedSlotVisitor` records for one object. -/
def reRecordPage (recordNew recordShared : Nat → List Nat) (failedStart : Nat)
    (p : AbortPage) : AbortPage :=
  { p with
    compactionAborted := true,
    oldToNew :=
      p.oldToNew.filter
          (fun a => !(decide (p.pageAddress ≤ a ∧ a < failedStart))) ++
        p.liveObjects.flatMap (fun ob => recordNew ob.1),
    oldToShared :=
      p.oldToShared.filter
          (fun a => !(decide (p.pageAddress ≤ a ∧ a < failedStart))) ++
        p.liveObjects.flatMap (fun ob => recordShared ob.1),
    liveBytes := sumSizes p.liveObjects }

/-- The fate of one old-space candidate page over the whole cycle. -/
structure PageOutcome where
  finalPage : AbortPage
  sweeperSnapshot : Option AbortPage
  released : Bool
  fatal : Bool
deriving DecidableEq

/-- One old-space evacuation candidate through
`FullEvacuator::RawEvacuatePage` (mode `kObjectsOldToOld`, mark-compact.cc
lines 3814-3832), `PostProcessEvacuationCandidates` (4834-4864), the
`Evacuate` clean-up loop (4207-4212) and `ReleaseEvacuationCandidates`
(4866-4876).  `failure = some failed_start` embeds `VisitBlackObjects`
returning `false` with that failing address (per-thread allocation failure);
`none` is a fully evacuated page.  On failure with
`FLAG_crash_on_aborted_evacuation` unset, the page is reported, re-recorded,
its candidate flag cleared, handed to the sweeper (`sweeperSnapshot` is its
state at `AddPage` time, before the abort flag is cleared) and never
released. -/
def evacuateOldToOldPage (crashOnAbortedEvacuation : Bool)
    (recordNew recordShared : Nat → List Nat) (p : AbortPage)
    (failure : Option Nat) : PageOutcome :=
  match failure with
  | none =>
    { finalPage := p, sweeperSnapshot := none, released := true, fatal := false }
  | some failedStart =>
    if crashOnAbortedEvacuation then
      { finalPage := p, sweeperSnapshot := none, released := false, fatal := true }
    else
      let p1 := reRecordPage recordNew recordShared failedStart p
      let p2 := { p1 with evacuationCandidate := false }
      let p3 := { p2 with compactionAborted := false }
      { finalPage := p3, sweeperSnapshot := some p2, released := false,
        fatal := false }

/-! ## `MarkCompactCollector::ClearWeakCollections`

One entry of an `EphemeronHashTable` as iterated by `ClearWeakCollections`.
`keyInSharedHeap` embeds `key.InSharedHeap()`. -/

structure EphemeronEntry where
  key : Nat
  value : Nat
  keyInSharedHeap : Bool
deriving DecidableEq

/-- The per-entry decision of `ClearWeakCollections` (mark-compact.cc,
lines 2980-2999): in a client (non-shared-heap) collection an entry whose key
lives in the shared heap is skipped (`continue`, i.e. kept unchanged); any
other entry is removed via `table.RemoveEntry(i)` exactly when its key is not
Black or Grey.  Returns `true` when the entry is kept. -/
def clearWeakCollectionsKeeps (isSharedHeap : Bool) (color : Nat → Color)
    (e : EphemeronEntry) : Bool :=
  if !isSharedHeap && e.keyInSharedHeap then true
  else if !(isBlackOrGrey (color e.key)) then false
  else true

/-- `ClearWeakCollections` applied to one ephemeron hash table: the surviving
entries, in order. -/
def clearWeakCollectionsTable (isSharedHeap : Bool) (color : Nat → Color)
    (entries : List EphemeronEntry) : List EphemeronEntry :=
  entries.filter (clearWeakCollectionsKeeps isSharedHeap color)

/-! ## `MarkCompactCollector::StartSweepSpace` -/

/-- A page of a paged space as seen by `StartSweepSpace`. -/
structure SweepPage where
  id : Nat
  liveBytes : Nat
  isEvacuationCandidate : Bool
deriving DecidableEq

/-- Outcome of `StartSweepSpace`: the pages handed to the sweeper via
`sweeper()->AddPage(...)` (in order), the pages released back to the allocator
via `space->ReleasePage(p)`, and the `will_be_swept` counter. -/
structure SweepOutcome where
  swept : List SweepPage
  released : List SweepPage
  willBeSwept : Nat
deriving DecidableEq

/-- The loop body of `StartSweepSpace` (mark-compact.cc, lines 4885-4911),
threading the `unused_page_present` flag: evacuation candidates are skipped;
the first zero-live-byte page only sets the flag and is still queued; every
later zero-live-byte page is removed from the space and released. -/
def startSweepSpaceLoop : List SweepPage → Bool → SweepOutcome → SweepOutcome
  | [], _, acc => acc
  | p :: rest, unusedPagePresent, acc =>
    if p.isEvacuationCandidate then
      startSweepSpaceLoop rest unusedPagePresent acc
    else if p.liveBytes = 0 then
      if unusedPagePresent then
        startSweepSpaceLoop rest unusedPagePresent
          { acc with released := acc.released ++ [p] }
      else
        startSweepSpaceLoop rest true
          { acc with swept := acc.swept ++ [p], willBeSwept := acc.willBeSwept + 1 }
    else
      startSweepSpaceLoop rest unusedPagePresent
        { acc with swept := acc.swept ++ [p], willBeSwept := acc.willBeSwept + 1 }

/-- `MarkCompactCollector::StartSweepSpace` over the page list of one paged
space. -/
def startSweepSpace (pages : List SweepPage) : SweepOutcome :=
  startSweepSpaceLoop pages false ⟨[], [], 0⟩

/-- A zero-live-byte page that is not an evacuation candidate ("unused page"). -/
def isUnusedPage (p : SweepPage) : Bool :=
  !p.isEvacuationCandidate && p.liveBytes == 0

/-! ## `MarkCompactCollector::CollectEvacuationCandidates` (standard path)

`LiveBytesPagePair` embeds the `std::pair<size_t, Page*>` of
(allocated bytes in page, page), with the page represented by its id. -/

abbrev LiveBytesPagePair := Nat × Nat

/-- The comparator of the `std::sort` call: ascending allocated bytes. -/
def pageLe (a b : LiveBytesPagePair) : Prop := a.1 ≤ b.1

instance : DecidableRel pageLe := fun a b => Nat.decLe a.1 b.1

instance : IsTotal LiveBytesPagePair pageLe := ⟨fun a b => Nat.le_total a.1 b.1⟩

instance : IsTrans LiveBytesPagePair pageLe := ⟨fun _ _ _ h h2 => Nat.le_trans h h2⟩

/-- One step of the greedy acceptance loop (mark-compact.cc, lines 922-929):
the accumulator is `(candidate_count, total_live_bytes)`; a page is accepted
when accepting it keeps the running total within `max_evacuated_bytes`
(the `FLAG_compact_on_every_full_gc` disjunct is `false` on the standard
path). -/
def greedyStep (maxEvacuatedBytes : Nat) (acc : Nat × Nat) (p : LiveBytesPagePair) :
    Nat × Nat :=
  if acc.2 + p.1 ≤ maxEvacuatedBytes then (acc.1 + 1, acc.2 + p.1) else acc

/-- The standard (non-test-flag) selection path of `CollectEvacuationCandidates`
(mark-compact.cc, lines 910-953): sort the eligible pages by allocated bytes
ascending, count the greedily accepted pages and their total live bytes,
estimate the released pages as `candidate_count - ceil(total / area_size)`,
clear the count when that estimate is zero, and emit the first
`candidate_count` sorted pages. -/
def collectEvacuationCandidatesStandard (pages : List LiveBytesPagePair)
    (maxEvacuatedBytes areaSize : Nat) : List LiveBytesPagePair :=
  let sorted := List.insertionSort pageLe pages
  let counted := sorted.foldl (greedyStep maxEvacuatedBytes) (0, 0)
  let candidateCount := counted.1
  let totalLiveBytes := counted.2
  let estimatedNewPages := (totalLiveBytes + areaSize - 1) / areaSize
  let estimatedReleasedPages := candidateCount - estimatedNewPages
  let finalCount := if estimatedReleasedPages = 0 then 0 else candidateCount
  sorted.take finalCount

/-- Spec-side reading of the claim: the maximal prefix of the (ascending)
sorted list each of whose pages keeps the running live-byte total within the
quota. -/
def greedyPrefix (maxEvacuatedBytes : Nat) :
    List LiveBytesPagePair → Nat → List LiveBytesPagePair
  | [], _ => []
  | p :: rest, total =>
    if total + p.1 ≤ maxEvacuatedBytes then
      p :: greedyPrefix maxEvacuatedBytes rest (total + p.1)
    else []

/-- Total allocated bytes of a page list. -/
def sumLiveBytes (l : List LiveBytesPagePair) : Nat := (l.map Prod.fst).sum

/-- Spec-side reading of the whole standard selection path: greedy prefix of
the ascending-sorted pages, cleared when the predicted number of released
pages is zero. -/
def collectEvacuationCandidatesSpec (pages : List LiveBytesPagePair)
    (maxEvacuatedBytes areaSize : Nat) : List LiveBytesPagePair :=
  let sorted := List.insertionSort pageLe pages
  let selected := greedyPrefix maxEvacuatedBytes sorted 0
  let totalLiveBytes := sumLiveBytes selected
  if selected.length - ((totalLiveBytes + areaSize - 1) / areaSize) = 0 then []
  else selected

/-! ## Whole-page promotion (`ShouldMovePage` / `EvacuatePagesInParallel`) -/

/-- Owner space of a page, as far as promotion is concerned. -/
inductive SpaceKind where
  | newSpace
  | oldSpace
deriving DecidableEq

/-- A nursery page as seen by the full collector's `EvacuatePagesInParallel`:
the page-promotion flags (`PAGE_NEW_OLD_PROMOTION` / `PAGE_NEW_NEW_PROMOTION`),
the never-evacuate flag, whether the page contains the new-space age mark, and
its owning space. -/
structure NurseryPage where
  id : Nat
  neverEvacuate : Bool
  containsAgeMark : Bool
  flagNewOldPromotion : Bool
  flagNewNewPromotion : Bool
  owner : SpaceKind
deriving DecidableEq

/-- Heap state consulted by `ShouldMovePage`. -/
structure PromotionHeapParams where
  reduceMemory : Bool
  pagePromotion : Bool
  pagePromotionThreshold : Nat
  allocatableBytesInDataPage : Nat
  canExpandOldGeneration : Nat → Bool

/-- `kTaggedSize` on a 64-bit build without pointer compression. -/
def kTaggedSize : Nat := 8

/-- `Evacuator::NewSpacePageEvacuationThreshold` (mark-compact.cc, lines
3617-3622). -/
def newSpacePageEvacuationThreshold (h : PromotionHeapParams) : Nat :=
  if h.pagePromotion then
    h.pagePromotionThreshold * h.allocatableBytesInDataPage / 100
  else h.allocatableBytesInDataPage + kTaggedSize

/-- `ShouldMovePage` (mark-compact.cc, lines 3930-3940). -/
def shouldMovePage (h : PromotionHeapParams) (p : NurseryPage) (liveBytes : Nat)
    (alwaysPromoteYoung : Bool) : Bool :=
  !h.reduceMemory && !p.neverEvacuate &&
    decide (newSpacePageEvacuationThreshold h < liveBytes) &&
    (alwaysPromoteYoung || !p.containsAgeMark) &&
    h.canExpandOldGeneration liveBytes

/-- `EvacuateNewSpacePageVisitor<NEW_TO_OLD>::Move` (mark-compact.cc, lines
1866-1879): the page leaves the nursery for old space and gets the
`PAGE_NEW_OLD_PROMOTION` flag; no object moves. -/
def moveNewToOld (p : NurseryPage) : NurseryPage :=
  { p with owner := SpaceKind.oldSpace, flagNewOldPromotion := true }

/-- `Evacuator::EvacuationMode`. -/
inductive EvacuationMode where
  | kObjectsNewToOld
  | kPageNewToOld
  | kPageNewToNew
  | kObjectsOldToOld
deriving DecidableEq

/-- `Evacuator::ComputeEvacuationMode` (mark-compact.cc, lines 3605-3613). -/
def computeEvacuationMode (p : NurseryPage) : EvacuationMode :=
  if p.flagNewOldPromotion then EvacuationMode.kPageNewToOld
  else if p.flagNewNewPromotion then EvacuationMode.kPageNewToNew
  else if p.owner = SpaceKind.newSpace then EvacuationMode.kObjectsNewToOld
  else EvacuationMode.kObjectsOldToOld

/-- The per-page pre-pass of the full collector's `EvacuatePagesInParallel`
over `new_space_evacuation_pages_` (mark-compact.cc, lines 3966-3979): pages
with zero live bytes are skipped; pages passing `ShouldMovePage` (with
`AlwaysPromoteYoung::kYes`) are flipped whole to old space; every surviving
page becomes an evacuation item. -/
def newSpacePrePassPage (h : PromotionHeapParams) (liveBytes : Nat)
    (p : NurseryPage) : Option NurseryPage :=
  if liveBytes = 0 then none
  else if shouldMovePage h p liveBytes true then some (moveNewToOld p)
  else some p

/-- The new-space loop of `MarkCompactCollector::EvacuatePagesInParallel`. -/
def evacuatePagesInParallelNewSpace (h : PromotionHeapParams) (lb : Nat → Nat)
    (pages : List NurseryPage) : List NurseryPage :=
  pages.filterMap (fun p => newSpacePrePassPage h (lb p.id) p)

/-- What `FullEvacuator::RawEvacuatePage` does with the live objects of a page
in each mode (mark-compact.cc, lines 3785-3834): the object modes copy every
black object (and clear mark bits), the page modes only walk the live objects
with the record-only slot visitor. -/
structure EvacuationEffects where
  copiedObjects : List Nat
  recordedSlotHosts : List Nat
  marksCleared : Bool
deriving DecidableEq

/-- Effects of `FullEvacuator::RawEvacuatePage` per mode, over the list of
live (black) objects on the page. -/
def rawEvacuatePageEffects (liveObjects : List Nat) :
    EvacuationMode → EvacuationEffects
  | EvacuationMode.kObjectsNewToOld => ⟨liveObjects, liveObjects, true⟩
  | EvacuationMode.kPageNewToOld => ⟨[], liveObjects, false⟩
  | EvacuationMode.kPageNewToNew => ⟨[], liveObjects, false⟩
  | EvacuationMode.kObjectsOldToOld => ⟨liveObjects, liveObjects, true⟩

/-! ## `EvacuateNewSpaceVisitor::Visit` -/

/-- The per-thread allocation interface seen by the new-space visitor: results
of `local_allocator_->Allocate(NEW_SPACE, ...)`,
`local_allocator_->Allocate(OLD_SPACE, ...)` and
`shared_old_allocator_->AllocateRaw(...)`; `none` is `AllocationResult`
failure. -/
structure NewSpaceAllocators where
  allocateNew : Option Nat
  allocateOld : Option Nat
  allocateShared : Option Nat
deriving DecidableEq

/-- The properties of a young object that `EvacuateNewSpaceVisitor::Visit`
branches on: the thin-string shortcut of `TryEvacuateWithoutCopy`,
`ShouldPromoteIntoSharedHeap(map)`, and
`heap_->ShouldBePromoted(object.address())`. -/
structure YoungObject where
  canEvacuateWithoutCopy : Bool
  promoteIntoSharedHeap : Bool
  shouldBePromoted : Bool
deriving DecidableEq

/-- How one visit of a young object ends. -/
inductive VisitOutcome where
  | movedWithoutCopy
  | promotedToOld (addr : Nat)
  | copiedToNew (addr : Nat)
  | copiedToOldFallback (addr : Nat)
  | fatalProcessOutOfMemory (message : String)
deriving DecidableEq

/-- `EvacuateVisitorBase::TryEvacuateObject` with `target_space == OLD_SPACE`
(mark-compact.cc, lines 1669-1697): internalizable strings go to the shared
old allocator when a shared string table is active, everything else to the
local old-space allocator. -/
def tryEvacuateObjectOld (a : NewSpaceAllocators) (obj : YoungObject) :
    Option Nat :=
  if obj.promoteIntoSharedHeap then a.allocateShared else a.allocateOld

/-- `EvacuateNewSpaceVisitor::AllocateInOldSpace` (mark-compact.cc, lines
1836-1845): old-space allocation failure during the semispace-copy fallback is
fatal. -/
def allocateInOldSpace (a : NewSpaceAllocators) : VisitOutcome :=
  match a.allocateOld with
  | some addr => VisitOutcome.copiedToOldFallback addr
  | none => VisitOutcome.fatalProcessOutOfMemory
      "MarkCompactCollector: semi-space copy, fallback in old gen"

/-- `EvacuateNewSpaceVisitor::Visit` (mark-compact.cc, lines 1764-1795),
returning the outcome together with the C++ `bool` return value of `Visit`
(`false` would mean the page evacuation is aborted; every source branch
returns `true`).  With `AlwaysPromoteYoung::kYes` (the full collector) a
failed promotion is immediately fatal; with `kNo` (the minor collector) a
failed promotion falls through to the semispace copy, whose own old-space
fallback is the only fatal path. -/
def evacuateNewSpaceVisit (alwaysPromoteYoung : Bool) (a : NewSpaceAllocators)
    (obj : YoungObject) : VisitOutcome × Bool :=
  if obj.canEvacuateWithoutCopy then (VisitOutcome.movedWithoutCopy, true)
  else if alwaysPromoteYoung then
    match tryEvacuateObjectOld a obj with
    | some addr => (VisitOutcome.promotedToOld addr, true)
    | none => (VisitOutcome.fatalProcessOutOfMemory
        "MarkCompactCollector: young object promotion failed", true)
  else
    match (if obj.shouldBePromoted then tryEvacuateObjectOld a obj else none) with
    | some addr => (VisitOutcome.promotedToOld addr, true)
    | none =>
      match a.allocateNew with
      | some addr => (VisitOutcome.copiedToNew addr, true)
      | none => (allocateInOldSpace a, true)

theorem setColor_same (f : Nat → Color) (o : Nat) (c : Color) :
    setColor f o c o = c := by
  simp [setColor]

theorem setColor_other (f : Nat → Color) (o x : Nat) (c : Color) (h : x ≠ o) :
    setColor f o c x = f x := by
  simp [setColor, h]

theorem foldl_greedyStep_of_rejected (maxEvacuatedBytes : Nat)
    (l : List LiveBytesPagePair) :
    ∀ c t, (∀ q ∈ l, ¬(t + q.1 ≤ maxEvacuatedBytes)) →
      l.foldl (greedyStep maxEvacuatedBytes) (c, t) = (c, t) := by
  induction l with
  | nil => intro c t _; rfl
  | cons p rest ih =>
    intro c t h
    have hp := h p (by simp)
    simp only [List.foldl_cons, greedyStep, hp, if_false]
    exact ih c t (fun q hq => h q (by simp [hq]))

theorem foldl_greedyStep_sorted (maxEvacuatedBytes : Nat)
    (l : List LiveBytesPagePair) (hs : List.Sorted pageLe l) :
    ∀ c t, l.foldl (greedyStep maxEvacuatedBytes) (c, t) =
      (c + (greedyPrefix maxEvacuatedBytes l t).length,
       t + sumLiveBytes (greedyPrefix maxEvacuatedBytes l t)) := by
  induction l with
  | nil => intro c t; simp [greedyPrefix, sumLiveBytes]
  | cons p rest ih =>
    rcases List.sorted_cons.mp hs with ⟨hp, hrest⟩
    intro c t
    by_cases hacc : t + p.1 ≤ maxEvacuatedBytes
    · simp only [List.foldl_cons, greedyStep, hacc, if_true, greedyPrefix]
      rw [ih hrest (c + 1) (t + p.1)]
      simp [sumLiveBytes]
      omega
    · simp only [List.foldl_cons, greedyStep, hacc, if_false, greedyPrefix]
      rw [foldl_greedyStep_of_rejected maxEvacuatedBytes rest c t]
      · simp [sumLiveBytes]
      · intro q hq hle
        exact hacc (Nat.le_trans (Nat.add_le_add_left (hp q hq) t) hle)

theorem take_greedyPrefix_length (maxEvacuatedBytes : Nat)
    (l : List LiveBytesPagePair) :
    ∀ t, l.take (greedyPrefix maxEvacuatedBytes l t).length =
      greedyPrefix maxEvacuatedBytes l t := by
  induction l with
  | nil => intro t; simp [greedyPrefix]
  | cons p rest ih =>
    intro t
    by_cases hacc : t + p.1 ≤ maxEvacuatedBytes
    · simp [greedyPrefix, hacc, ih]
    · simp [greedyPrefix, hacc]

/-- C5: on the standard selection path the eligible pages are sorted by
allocated bytes ascending (the sorted list is a permutation of the eligible
pages), the candidates are exactly the greedy prefix of that order whose
running live-byte total stays within `max_evacuated_bytes`, and when the
estimated number of released pages (`candidate_count -
ceil(total_live_bytes / area_size)`) is zero no candidate is added at all. -/
theorem collectEvacuationCandidates_standard_spec (pages : List LiveBytesPagePair)
    (maxEvacuatedBytes areaSize : Nat) :
    (List.insertionSort pageLe pages).Perm pages ∧
      List.Sorted pageLe (List.insertionSort pageLe pages) ∧
      collectEvacuationCandidatesStandard pages maxEvacuatedBytes areaSize =
        collectEvacuationCandidatesSpec pages maxEvacuatedBytes areaSize := by
  refine ⟨List.perm_insertionSort pageLe pages,
    List.sorted_insertionSort pageLe pages, ?_⟩
  have hs := List.sorted_insertionSort pageLe pages
  simp only [collectEvacuationCandidatesStandard, collectEvacuationCandidatesSpec]
  rw [foldl_greedyStep_sorted maxEvacuatedBytes _ hs 0 0]
  simp only [Nat.zero_add]
  by_cases h0 :
      (greedyPrefix maxEvacuatedBytes (List.insertionSort pageLe pages) 0).length -
        ((sumLiveBytes (greedyPrefix maxEvacuatedBytes
            (List.insertionSort pageLe pages) 0) + areaSize - 1) / areaSize) = 0
  · simp [h0]
  · simp [h0, take_greedyPrefix_length]

theorem isBlackOrGrey_of_ne_white {c : Color} (h : c ≠ Color.White) :
    isBlackOrGrey c = true := by
  cases c <;> simp_all [isBlackOrGrey]

theorem ne_white_of_isBlackOrGrey {c : Color} (h : isBlackOrGrey c = true) :
    c ≠ Color.White := by
  cases c <;> simp_all [isBlackOrGrey]

theorem isBlack_of_isBlackOrGrey_ne_grey {c : Color} (h : isBlackOrGrey c = true)
    (hg : c ≠ Color.Grey) : isBlack c = true := by
  cases c <;> simp_all [isBlackOrGrey, isBlack]

theorem isBlackOrGrey_of_isBlack {c : Color} (h : isBlack c = true) :
    isBlackOrGrey c = true := by
  cases c <;> simp_all [isBlackOrGrey, isBlack]

theorem colorRank_le_two (c : Color) : colorRank c ≤ 2 := by
  cases c <;> simp [colorRank]

theorem isBlackOrGrey_mono {a b : Color} (h : colorRank a ≤ colorRank b)
    (ha : isBlackOrGrey a = true) : isBlackOrGrey b = true := by
  cases a <;> cases b <;> simp_all [colorRank, isBlackOrGrey]

theorem ColorMono.rfl (st : MarkerState) : ColorMono st st :=
  fun _ => Nat.le_refl _

theorem ColorMono.comp {a b c : MarkerState} (h1 : ColorMono a b)
    (h2 : ColorMono b c) : ColorMono a c :=
  fun x => Nat.le_trans (h1 x) (h2 x)

theorem countP_lt_of_flip {p q : Nat → Bool} (t : Nat) (l : List Nat)
    (hmono : ∀ x, p x = true → q x = true) (ht : t ∈ l)
    (hq : q t = true) (hp : p t = false) : l.countP p < l.countP q := by
  induction l with
  | nil => cases ht
  | cons a rest ih =>
    rcases List.mem_cons.mp ht with rfl | hmem
    · have hmono' : List.countP p rest ≤ List.countP q rest :=
        List.countP_mono_left fun x _ hx => hmono x hx
      simp only [List.countP_cons, hp, hq, if_true, if_false, Bool.false_eq_true]
      omega
    · have hr := ih hmem
      rw [List.countP_cons, List.countP_cons]
      have hle : (if p a then 1 else 0) ≤ (if q a then 1 else 0) := by
        by_cases hpa : p a = true
        · simp [hpa, hmono a hpa]
        · simp [hpa]
      omega

theorem countWhite_setColor_le (heap : HeapModel) (c : Nat → Color) (o : Nat)
    (col : Color) (hcol : col ≠ Color.White) :
    countWhite heap (setColor c o col) ≤ countWhite heap c := by
  apply List.countP_mono_left
  intro x _ hx
  by_cases h : x = o
  · subst h
    rw [setColor_same] at hx
    simp only [beq_iff_eq] at hx
    exact absurd hx hcol
  · rwa [setColor_other _ _ _ _ h] at hx

theorem countWhite_setColor_lt (heap : HeapModel) (c : Nat → Color) (t : Nat)
    (col : Color) (hcol : col ≠ Color.White) (ht : t ∈ heap.objects)
    (hw : c t = Color.White) :
    countWhite heap (setColor c t col) < countWhite heap c := by
  refine countP_lt_of_flip t heap.objects ?_ ht ?_ ?_
  · intro x hx
    by_cases h : x = t
    · subst h; simp [hw]
    · rwa [setColor_other _ _ _ _ h] at hx
  · simp [hw]
  · rw [setColor_same]
    simp only [beq_eq_false_iff_ne, ne_eq]
    exact hcol

theorem markObject_measure (heap : HeapModel) (st : MarkerState) (t : Nat)
    (ht : t ∈ heap.objects) :
    markingMeasure heap (markObject st t) ≤ markingMeasure heap st := by
  unfold markObject
  by_cases hw : st.color t = Color.White
  · have hlt := countWhite_setColor_lt heap st.color t Color.Grey (by decide) ht hw
    simp only [hw, if_true, markingMeasure, List.length_cons]
    omega
  · simp [hw]

theorem foldl_markObject_measure (heap : HeapModel) (ts : List Nat) :
    ∀ st : MarkerState, (∀ t ∈ ts, t ∈ heap.objects) →
      markingMeasure heap (ts.foldl markObject st) ≤ markingMeasure heap st := by
  induction ts with
  | nil => intro st _; simp
  | cons t rest ih =>
    intro st hts
    calc markingMeasure heap ((t :: rest).foldl markObject st)
        = markingMeasure heap (rest.foldl markObject (markObject st t)) := rfl
      _ ≤ markingMeasure heap (markObject st t) :=
          ih (markObject st t) (fun u hu => hts u (by simp [hu]))
      _ ≤ markingMeasure heap st := markObject_measure heap st t (hts t (by simp))

theorem visitObject_measure (heap : HeapModel) (hwf : heap.WellFormed)
    (st : MarkerState) (o : Nat) :
    markingMeasure heap (visitObject heap st o) ≤ markingMeasure heap st := by
  unfold visitObject
  refine le_trans
    (foldl_markObject_measure heap (heap.fields o) _ (fun t ht => hwf o t ht)) ?_
  have hle := countWhite_setColor_le heap st.color o Color.Black (by decide)
  simp only [markingMeasure]
  omega

theorem popWorklist_eq_none (st : MarkerState) (h : popWorklist st = none) :
    st.worklist = [] ∧ st.onHold = [] := by
  unfold popWorklist at h
  cases hw : st.worklist with
  | cons a rest => rw [hw] at h; cases h
  | nil =>
    rw [hw] at h
    cases hh : st.onHold with
    | cons a rest => rw [hh] at h; cases h
    | nil => exact ⟨rfl, rfl⟩

theorem popWorklist_measure (heap : HeapModel) (st : MarkerState) (o : Nat)
    (st1 : MarkerState) (h : popWorklist st = some (o, st1)) :
    markingMeasure heap st1 + 1 = markingMeasure heap st := by
  unfold popWorklist at h
  cases hw : st.worklist with
  | cons a rest =>
    rw [hw] at h
    cases h
    simp [markingMeasure, hw]
    omega
  | nil =>
    rw [hw] at h
    cases hh : st.onHold with
    | cons a rest =>
      rw [hh] at h
      cases h
      simp [markingMeasure, hw, hh]
      omega
    | nil => rw [hh] at h; cases h

theorem processMarkingWorklist_drains (heap : HeapModel) (hwf : heap.WellFormed) :
    ∀ (fuel : Nat) (st : MarkerState) (bytes objs : Nat),
      markingMeasure heap st ≤ fuel →
      (processMarkingWorklist heap 0 fuel st bytes objs).1.worklist = [] ∧
        (processMarkingWorklist heap 0 fuel st bytes objs).1.onHold = [] := by
  intro fuel
  induction fuel with
  | zero =>
    intro st bytes objs hm
    have h1 : st.worklist.length = 0 ∧ st.onHold.length = 0 := by
      simp only [markingMeasure] at hm
      omega
    exact ⟨List.eq_nil_of_length_eq_zero h1.1, List.eq_nil_of_length_eq_zero h1.2⟩
  | succ fuel ih =>
    intro st bytes objs hm
    cases hpop : popWorklist st with
    | none =>
      have he := popWorklist_eq_none st hpop
      simp [processMarkingWorklist, hpop, he.1, he.2]
    | some pr =>
      obtain ⟨o, st1⟩ := pr
      have hmeas := popWorklist_measure heap st o st1 hpop
      by_cases hfil : heap.isFiller o = true
      · have heq : processMarkingWorklist heap 0 (fuel + 1) st bytes objs =
            processMarkingWorklist heap 0 fuel st1 bytes objs := by
          simp [processMarkingWorklist, hpop, hfil]
        rw [heq]
        exact ih st1 bytes objs (by omega)
      · have heq : processMarkingWorklist heap 0 (fuel + 1) st bytes objs =
            processMarkingWorklist heap 0 fuel (visitObject heap st1 o)
              (bytes + heap.size o) (objs + 1) := by
          simp [processMarkingWorklist, hpop, hfil]
        rw [heq]
        have h2 := visitObject_measure heap hwf st1 o
        exact ih _ _ _ (by omega)

/-- C8: `ProcessMarkingWorklist` with a bytes budget of zero never stops on
the budget check: `DrainMarkingWorklist` (which passes 0) pops items — merely
discarding free-space/filler pseudo-objects — until both the regular and the
on-hold worklists are empty, given enough fuel for the (terminating) drain. -/
theorem drainMarkingWorklist_drains_completely (heap : HeapModel)
    (st : MarkerState) (fuel : Nat) (hwf : heap.WellFormed)
    (hfuel : markingMeasure heap st ≤ fuel) :
    ((drainMarkingWorklist heap fuel st).1.worklist = [] ∧
        (drainMarkingWorklist heap fuel st).1.onHold = []) ∧
      ∀ (c : Nat → Color) (wl oh : List Nat) (ne : List Ephemeron)
        (o bytes objs f2 : Nat), heap.isFiller o = true →
        processMarkingWorklist heap 0 (f2 + 1) ⟨c, o :: wl, oh, ne⟩ bytes objs =
          processMarkingWorklist heap 0 f2 ⟨c, wl, oh, ne⟩ bytes objs := by
  constructor
  · exact processMarkingWorklist_drains heap hwf fuel st 0 0 hfuel
  · intro c wl oh ne o bytes objs f2 hfil
    simp [processMarkingWorklist, popWorklist, hfil]

/-- Witness for C8 at a concrete three-object heap: object 0 is grey and
queued, visiting it greys objects 1 and 2, object 1 is a filler; the drain
with budget 0 empties both worklists. -/
theorem drainMarkingWorklist_drains_completely_witness :
    HeapModel.WellFormed ⟨[0, 1, 2], fun o => if o = 0 then [1, 2] else [],
        fun o => o == 1, fun _ => 16⟩ ∧
      markingMeasure ⟨[0, 1, 2], fun o => if o = 0 then [1, 2] else [],
          fun o => o == 1, fun _ => 16⟩
        ⟨fun o => if o = 0 then Color.Grey else Color.White, [0], [], []⟩ ≤ 8 ∧
      ((drainMarkingWorklist ⟨[0, 1, 2], fun o => if o = 0 then [1, 2] else [],
            fun o => o == 1, fun _ => 16⟩ 8
          ⟨fun o => if o = 0 then Color.Grey else Color.White, [0], [],
            []⟩).1.worklist = [] ∧
        (drainMarkingWorklist ⟨[0, 1, 2], fun o => if o = 0 then [1, 2] else [],
            fun o => o == 1, fun _ => 16⟩ 8
          ⟨fun o => if o = 0 then Color.Grey else Color.White, [0], [],
            []⟩).1.onHold = []) := by
  have hwf : HeapModel.WellFormed ⟨[0, 1, 2], fun o => if o = 0 then [1, 2] else [],
      fun o => o == 1, fun _ => 16⟩ := by
    intro o t ht
    by_cases h : o = 0
    · simp [h] at ht
      rcases ht with rfl | rfl <;> simp
    · simp [h] at ht
  have hfuel : markingMeasure ⟨[0, 1, 2], fun o => if o = 0 then [1, 2] else [],
      fun o => o == 1, fun _ => 16⟩
      ⟨fun o => if o = 0 then Color.Grey else Color.White, [0], [], []⟩ ≤ 8 := by
    decide
  exact ⟨hwf, hfuel,
    (drainMarkingWorklist_drains_completely _ _ 8 hwf hfuel).1⟩

theorem processEphemeron_mono (st : MarkerState) (key value : Nat) :
    ColorMono st (processEphemeron st key value).1 := by
  intro x
  unfold processEphemeron
  by_cases hk : isBlackOrGrey (st.color key) = true
  · by_cases hv : st.color value = Color.White
    · simp only [hk, hv, if_true]
      by_cases hx : x = value
      · subst hx
        rw [setColor_same, hv]
        simp [colorRank]
      · rw [setColor_other _ _ _ _ hx]
    · simp [hk, hv]
  · by_cases hv : st.color value = Color.White
    · simp [hk, hv]
    · simp [hk, hv]

theorem processEphemeron_next_superset (st : MarkerState) (key value : Nat) :
    ∀ e ∈ st.nextEphemerons, e ∈ (processEphemeron st key value).1.nextEphemerons := by
  intro e he
  unfold processEphemeron
  by_cases hk : isBlackOrGrey (st.color key) = true
  · by_cases hv : st.color value = Color.White <;> simp [hk, hv, he]
  · by_cases hv : st.color value = Color.White <;> simp [hk, hv, he]

theorem processEphemeron_worklist_superset (st : MarkerState) (key value : Nat) :
    ∀ o ∈ st.worklist, o ∈ (processEphemeron st key value).1.worklist := by
  intro o ho
  unfold processEphemeron
  by_cases hk : isBlackOrGrey (st.color key) = true
  · by_cases hv : st.color value = Color.White <;> simp [hk, hv, ho]
  · by_cases hv : st.color value = Color.White <;> simp [hk, hv, ho]

theorem processEphemeron_onHold (st : MarkerState) (key value : Nat) :
    (processEphemeron st key value).1.onHold = st.onHold := by
  unfold processEphemeron
  by_cases hk : isBlackOrGrey (st.color key) = true
  · by_cases hv : st.color value = Color.White <;> simp [hk, hv]
  · by_cases hv : st.color value = Color.White <;> simp [hk, hv]

theorem processEphemeron_greyQueued (heap : HeapModel) (st : MarkerState)
    (key value : Nat) (hB : GreyImpliesQueued heap st) :
    GreyImpliesQueued heap (processEphemeron st key value).1 := by
  intro o hf hg
  unfold processEphemeron at hg ⊢
  by_cases hk : isBlackOrGrey (st.color key) = true
  · by_cases hv : st.color value = Color.White
    · simp only [hk, hv, if_true] at hg ⊢
      by_cases ho : o = value
      · subst ho; simp
      · rw [setColor_other _ _ _ _ ho] at hg
        rcases hB o hf hg with h | h
        · exact Or.inl (by simp [h])
        · exact Or.inr h
    · simp only [hk, hv, if_false] at hg ⊢
      exact hB o hf hg
  · by_cases hv : st.color value = Color.White
    · simp only [hk, hv] at hg ⊢
      exact hB o hf hg
    · simp only [hk, hv] at hg ⊢
      exact hB o hf hg

theorem processEphemeron_false_color (st : MarkerState) (key value : Nat)
    (h : (processEphemeron st key value).2 = false) :
    (processEphemeron st key value).1.color = st.color ∧
      ¬(isBlackOrGrey (st.color key) = true ∧ st.color value = Color.White) := by
  unfold processEphemeron at h ⊢
  by_cases hk : isBlackOrGrey (st.color key) = true
  · by_cases hv : st.color value = Color.White
    · simp [hk, hv] at h
    · simp [hk, hv]
  · by_cases hv : st.color value = Color.White
    · simp [hk, hv]
    · simp [hk, hv]

theorem processEphemeron_processed (st : MarkerState) (e : Ephemeron) :
    e ∈ (processEphemeron st e.key e.value).1.nextEphemerons ∨
      isBlackOrGrey ((processEphemeron st e.key e.value).1.color e.value) = true := by
  unfold processEphemeron
  by_cases hk : isBlackOrGrey (st.color e.key) = true
  · by_cases hv : st.color e.value = Color.White
    · right
      simp only [hk, hv, if_true]
      rw [setColor_same]
      rfl
    · right
      simp only [hk, hv, if_false]
      exact isBlackOrGrey_of_ne_white hv
  · by_cases hv : st.color e.value = Color.White
    · left
      simp [hk, hv]
    · right
      simp only [hk, hv]
      simp only [Bool.false_eq_true, if_false]
      exact isBlackOrGrey_of_ne_white hv

theorem drainCurrentEphemerons_mono (es : List Ephemeron) :
    ∀ st : MarkerState, ColorMono st (drainCurrentEphemerons es st).1 := by
  induction es with
  | nil => intro st; exact ColorMono.rfl st
  | cons e rest ih =>
    intro st
    exact ColorMono.comp (processEphemeron_mono st e.key e.value)
      (ih (processEphemeron st e.key e.value).1)

theorem drainCurrentEphemerons_next_superset (es : List Ephemeron) :
    ∀ st : MarkerState, ∀ e ∈ st.nextEphemerons,
      e ∈ (drainCurrentEphemerons es st).1.nextEphemerons := by
  induction es with
  | nil => intro st e he; exact he
  | cons e2 rest ih =>
    intro st e he
    exact ih _ e (processEphemeron_next_superset st e2.key e2.value e he)

theorem drainCurrentEphemerons_worklist_superset (es : List Ephemeron) :
    ∀ st : MarkerState, ∀ o ∈ st.worklist,
      o ∈ (drainCurrentEphemerons es st).1.worklist := by
  induction es with
  | nil => intro st o ho; exact ho
  | cons e2 rest ih =>
    intro st o ho
    exact ih _ o (processEphemeron_worklist_superset st e2.key e2.value o ho)

theorem drainCurrentEphemerons_onHold (es : List Ephemeron) :
    ∀ st : MarkerState, (drainCurrentEphemerons es st).1.onHold = st.onHold := by
  induction es with
  | nil => intro st; rfl
  | cons e2 rest ih =>
    intro st
    rw [show (drainCurrentEphemerons (e2 :: rest) st).1 =
      (drainCurrentEphemerons rest (processEphemeron st e2.key e2.value).1).1 from rfl]
    rw [ih _, processEphemeron_onHold]

theorem drainCurrentEphemerons_greyQueued (heap : HeapModel) (es : List Ephemeron) :
    ∀ st : MarkerState, GreyImpliesQueued heap st →
      GreyImpliesQueued heap (drainCurrentEphemerons es st).1 := by
  induction es with
  | nil => intro st hB; exact hB
  | cons e2 rest ih =>
    intro st hB
    exact ih _ (processEphemeron_greyQueued heap st e2.key e2.value hB)

theorem drainCurrentEphemerons_processed (es : List Ephemeron) :
    ∀ st : MarkerState, ∀ e ∈ es,
      e ∈ (drainCurrentEphemerons es st).1.nextEphemerons ∨
        isBlackOrGrey ((drainCurrentEphemerons es st).1.color e.value) = true := by
  induction es with
  | nil => intro st e he; cases he
  | cons e2 rest ih =>
    intro st e he
    rcases List.mem_cons.mp he with rfl | hmem
    · rcases processEphemeron_processed st e with h | h
      · exact Or.inl (drainCurrentEphemerons_next_superset rest _ e h)
      · exact Or.inr (isBlackOrGrey_mono
          (drainCurrentEphemerons_mono rest _ e.value) h)
    · exact ih _ e hmem

theorem drainCurrentEphemerons_false (es : List Ephemeron) :
    ∀ st : MarkerState, (drainCurrentEphemerons es st).2 = false →
      (drainCurrentEphemerons es st).1.color = st.color ∧
        ∀ e ∈ es, ¬(isBlackOrGrey (st.color e.key) = true ∧
          st.color e.value = Color.White) := by
  induction es with
  | nil => intro st _; exact ⟨rfl, fun e he => absurd he (List.not_mem_nil e)⟩
  | cons e2 rest ih =>
    intro st hflag
    have hsplit : (processEphemeron st e2.key e2.value).2 = false ∧
        (drainCurrentEphemerons rest (processEphemeron st e2.key e2.value).1).2 =
          false := by
      have : (drainCurrentEphemerons (e2 :: rest) st).2 =
          ((processEphemeron st e2.key e2.value).2 ||
            (drainCurrentEphemerons rest (processEphemeron st e2.key e2.value).1).2) :=
        rfl
      rw [this] at hflag
      exact Bool.or_eq_false_iff.mp hflag
    have h1 := processEphemeron_false_color st e2.key e2.value hsplit.1
    have h2 := ih _ hsplit.2
    have hcolor : (drainCurrentEphemerons (e2 :: rest) st).1.color = st.color := by
      rw [show (drainCurrentEphemerons (e2 :: rest) st).1 =
        (drainCurrentEphemerons rest (processEphemeron st e2.key e2.value).1).1
        from rfl]
      rw [h2.1, h1.1]
    refine ⟨hcolor, ?_⟩
    intro e he
    rcases List.mem_cons.mp he with rfl | hmem
    · exact h1.2
    · have := h2.2 e hmem
      rwa [h1.1] at this

theorem markObject_mono (st : MarkerState) (t : Nat) :
    ColorMono st (markObject st t) := by
  intro x
  unfold markObject
  by_cases hw : st.color t = Color.White
  · simp only [hw, if_true]
    by_cases hx : x = t
    · subst hx
      rw [setColor_same, hw]
      simp [colorRank]
    · rw [setColor_other _ _ _ _ hx]
  · simp [hw]

theorem markObject_next (st : MarkerState) (t : Nat) :
    (markObject st t).nextEphemerons = st.nextEphemerons := by
  unfold markObject
  by_cases hw : st.color t = Color.White <;> simp [hw]

theorem markObject_onHold (st : MarkerState) (t : Nat) :
    (markObject st t).onHold = st.onHold := by
  unfold markObject
  by_cases hw : st.color t = Color.White <;> simp [hw]

theorem markObject_worklist_superset (st : MarkerState) (t : Nat) :
    ∀ o ∈ st.worklist, o ∈ (markObject st t).worklist := by
  intro o ho
  unfold markObject
  by_cases hw : st.color t = Color.White <;> simp [hw, ho]

theorem markObject_greyQueued (heap : HeapModel) (st : MarkerState) (t : Nat)
    (hB : GreyImpliesQueued heap st) : GreyImpliesQueued heap (markObject st t) := by
  intro x hf hg
  unfold markObject at hg ⊢
  by_cases hw : st.color t = Color.White
  · simp only [hw, if_true] at hg ⊢
    by_cases hx : x = t
    · subst hx; simp
    · rw [setColor_other _ _ _ _ hx] at hg
      rcases hB x hf hg with h | h
      · exact Or.inl (by simp [h])
      · exact Or.inr h
  · simp only [hw, if_false] at hg ⊢
    exact hB x hf hg

theorem foldl_markObject_mono (ts : List Nat) :
    ∀ st : MarkerState, ColorMono st (ts.foldl markObject st) := by
  induction ts with
  | nil => intro st; exact ColorMono.rfl st
  | cons t rest ih =>
    intro st
    exact ColorMono.comp (markObject_mono st t) (ih (markObject st t))

theorem foldl_markObject_next (ts : List Nat) :
    ∀ st : MarkerState, (ts.foldl markObject st).nextEphemerons =
      st.nextEphemerons := by
  induction ts with
  | nil => intro st; rfl
  | cons t rest ih =>
    intro st
    rw [List.foldl_cons, ih, markObject_next]

theorem foldl_markObject_greyQueued (heap : HeapModel) (ts : List Nat) :
    ∀ st : MarkerState, GreyImpliesQueued heap st →
      GreyImpliesQueued heap (ts.foldl markObject st) := by
  induction ts with
  | nil => intro st hB; exact hB
  | cons t rest ih =>
    intro st hB
    exact ih _ (markObject_greyQueued heap st t hB)

theorem visitObject_mono (heap : HeapModel) (st : MarkerState) (o : Nat) :
    ColorMono st (visitObject heap st o) := by
  refine ColorMono.comp (b := { st with color := setColor st.color o Color.Black })
    ?_ (foldl_markObject_mono _ _)
  intro x
  by_cases hx : x = o
  · subst hx
    simp only [setColor_same]
    exact le_trans (colorRank_le_two _) (by simp [colorRank])
  · simp [setColor_other _ _ _ _ hx]

theorem visitObject_next (heap : HeapModel) (st : MarkerState) (o : Nat) :
    (visitObject heap st o).nextEphemerons = st.nextEphemerons := by
  unfold visitObject
  rw [foldl_markObject_next]

theorem visitObject_greyQueued (heap : HeapModel) (st : MarkerState) (o : Nat)
    (hB : ∀ x, heap.isFiller x = false → st.color x = Color.Grey →
      x ∈ st.worklist ∨ x ∈ st.onHold ∨ x = o) :
    GreyImpliesQueued heap (visitObject heap st o) := by
  unfold visitObject
  apply foldl_markObject_greyQueued
  intro x hf hg
  simp only at hg
  by_cases hx : x = o
  · subst hx
    rw [setColor_same] at hg
    cases hg
  · rw [setColor_other _ _ _ _ hx] at hg
    rcases hB x hf hg with h | h | h
    · exact Or.inl h
    · exact Or.inr h
    · exact absurd h hx

theorem popWorklist_some (st : MarkerState) (o : Nat) (st1 : MarkerState)
    (h : popWorklist st = some (o, st1)) :
    st1.color = st.color ∧ st1.nextEphemerons = st.nextEphemerons ∧
      ((st.worklist = o :: st1.worklist ∧ st1.onHold = st.onHold) ∨
        (st.worklist = [] ∧ st1.worklist = [] ∧ st.onHold = o :: st1.onHold)) := by
  unfold popWorklist at h
  cases hw : st.worklist with
  | cons a rest =>
    rw [hw] at h
    cases h
    exact ⟨rfl, rfl, Or.inl ⟨rfl, rfl⟩⟩
  | nil =>
    rw [hw] at h
    cases hh : st.onHold with
    | cons a rest =>
      rw [hh] at h
      cases h
      exact ⟨rfl, rfl, Or.inr ⟨rfl, rfl, rfl⟩⟩
    | nil => rw [hh] at h; cases h

theorem popWorklist_queues (st : MarkerState) (o : Nat) (st1 : MarkerState)
    (h : popWorklist st = some (o, st1)) :
    ∀ x, (x ∈ st.worklist ∨ x ∈ st.onHold) →
      x = o ∨ x ∈ st1.worklist ∨ x ∈ st1.onHold := by
  intro x hx
  rcases (popWorklist_some st o st1 h).2.2 with ⟨hw, hh⟩ | ⟨hw, hw1, hh⟩
  · rcases hx with hx | hx
    · rw [hw] at hx
      rcases List.mem_cons.mp hx with rfl | hx
      · exact Or.inl rfl
      · exact Or.inr (Or.inl hx)
    · rw [← hh] at hx
      exact Or.inr (Or.inr hx)
  · rcases hx with hx | hx
    · rw [hw] at hx; cases hx
    · rw [hh] at hx
      rcases List.mem_cons.mp hx with rfl | hx
      · exact Or.inl rfl
      · exact Or.inr (Or.inr hx)

theorem processMarkingWorklist_mono (heap : HeapModel) (b : Nat) :
    ∀ (fuel : Nat) (st : MarkerState) (bytes objs : Nat),
      ColorMono st (processMarkingWorklist heap b fuel st bytes objs).1 := by
  intro fuel
  induction fuel with
  | zero => intro st bytes objs; exact ColorMono.rfl st
  | succ fuel ih =>
    intro st bytes objs
    cases hpop : popWorklist st with
    | none => simp only [processMarkingWorklist, hpop]; exact ColorMono.rfl st
    | some pr =>
      obtain ⟨o, st1⟩ := pr
      have hcol := (popWorklist_some st o st1 hpop).1
      by_cases hfil : heap.isFiller o = true
      · simp only [processMarkingWorklist, hpop, hfil, if_true]
        have := ih st1 bytes objs
        intro x
        rw [← hcol]
        exact this x
      · simp only [processMarkingWorklist, hpop, hfil, Bool.false_eq_true, if_false]
        by_cases hbud : b ≠ 0 ∧ b ≤ bytes + heap.size o
        · rw [if_pos hbud]
          intro x
          rw [← hcol]
          exact visitObject_mono heap st1 o x
        · rw [if_neg hbud]
          intro x
          rw [← hcol]
          exact ColorMono.comp (visitObject_mono heap st1 o) (ih _ _ _) x

theorem processMarkingWorklist_next (heap : HeapModel) (b : Nat) :
    ∀ (fuel : Nat) (st : MarkerState) (bytes objs : Nat),
      (processMarkingWorklist heap b fuel st bytes objs).1.nextEphemerons =
        st.nextEphemerons := by
  intro fuel
  induction fuel with
  | zero => intro st bytes objs; rfl
  | succ fuel ih =>
    intro st bytes objs
    cases hpop : popWorklist st with
    | none => simp only [processMarkingWorklist, hpop]
    | some pr =>
      obtain ⟨o, st1⟩ := pr
      have hnext := (popWorklist_some st o st1 hpop).2.1
      by_cases hfil : heap.isFiller o = true
      · simp only [processMarkingWorklist, hpop, hfil, if_true]
        rw [ih, hnext]
      · simp only [processMarkingWorklist, hpop, hfil, Bool.false_eq_true, if_false]
        by_cases hbud : b ≠ 0 ∧ b ≤ bytes + heap.size o
        · rw [if_pos hbud]
          show (visitObject heap st1 o).nextEphemerons = st.nextEphemerons
          rw [visitObject_next, hnext]
        · rw [if_neg hbud]
          rw [ih, visitObject_next, hnext]

theorem processMarkingWorklist_greyQueued (heap : HeapModel) :
    ∀ (fuel : Nat) (st : MarkerState) (bytes objs : Nat),
      GreyImpliesQueued heap st →
      GreyImpliesQueued heap (processMarkingWorklist heap 0 fuel st bytes objs).1 := by
  intro fuel
  induction fuel with
  | zero => intro st bytes objs hB; exact hB
  | succ fuel ih =>
    intro st bytes objs hB
    cases hpop : popWorklist st with
    | none => simp only [processMarkingWorklist, hpop]; exact hB
    | some pr =>
      obtain ⟨o, st1⟩ := pr
      have hps := popWorklist_some st o st1 hpop
      by_cases hfil : heap.isFiller o = true
      · simp only [processMarkingWorklist, hpop, hfil, if_true]
        refine ih st1 bytes objs ?_
        intro x hf hg
        rw [hps.1] at hg
        rcases popWorklist_queues st o st1 hpop x (hB x hf hg) with rfl | h
        · rw [hfil] at hf; cases hf
        · exact h
      · simp only [processMarkingWorklist, hpop, hfil, Bool.false_eq_true, if_false,
          ne_eq, not_true_eq_false, false_and, if_false]
        refine ih _ _ _ ?_
        refine visitObject_greyQueued heap st1 o ?_
        intro x hf hg
        rw [hps.1] at hg
        rcases popWorklist_queues st o st1 hpop x (hB x hf hg) with rfl | h | h
        · exact Or.inr (Or.inr rfl)
        · exact Or.inl h
        · exact Or.inr (Or.inl h)

theorem processMarkingWorklist_objs_le (heap : HeapModel) (b : Nat) :
    ∀ (fuel : Nat) (st : MarkerState) (bytes objs : Nat),
      objs ≤ (processMarkingWorklist heap b fuel st bytes objs).2.2 := by
  intro fuel
  induction fuel with
  | zero => intro st bytes objs; exact Nat.le_refl _
  | succ fuel ih =>
    intro st bytes objs
    cases hpop : popWorklist st with
    | none => simp only [processMarkingWorklist, hpop]; exact Nat.le_refl _
    | some pr =>
      obtain ⟨o, st1⟩ := pr
      by_cases hfil : heap.isFiller o = true
      · simp only [processMarkingWorklist, hpop, hfil, if_true]
        exact ih st1 bytes objs
      · simp only [processMarkingWorklist, hpop, hfil, Bool.false_eq_true, if_false]
        by_cases hbud : b ≠ 0 ∧ b ≤ bytes + heap.size o
        · rw [if_pos hbud]
          exact Nat.le_succ _
        · rw [if_neg hbud]
          exact Nat.le_trans (Nat.le_succ _) (ih _ _ _)

theorem processMarkingWorklist_no_objects (heap : HeapModel) :
    ∀ (fuel : Nat) (st : MarkerState) (bytes objs : Nat),
      (processMarkingWorklist heap 0 fuel st bytes objs).2.2 = objs →
      (processMarkingWorklist heap 0 fuel st bytes objs).1.color = st.color := by
  intro fuel
  induction fuel with
  | zero => intro st bytes objs _; rfl
  | succ fuel ih =>
    intro st bytes objs hobjs
    cases hpop : popWorklist st with
    | none => simp only [processMarkingWorklist, hpop]
    | some pr =>
      obtain ⟨o, st1⟩ := pr
      have hps := popWorklist_some st o st1 hpop
      by_cases hfil : heap.isFiller o = true
      · simp only [processMarkingWorklist, hpop, hfil, if_true] at hobjs ⊢
        rw [ih st1 bytes objs hobjs, hps.1]
      · exfalso
        simp only [processMarkingWorklist, hpop, hfil, Bool.false_eq_true, if_false,
          ne_eq, not_true_eq_false, false_and, if_false] at hobjs
        have := processMarkingWorklist_objs_le heap 0 fuel
          (visitObject heap st1 o) (bytes + heap.size o) (objs + 1)
        omega

theorem fixpointLoop_succ (heap : HeapModel) (fuel remaining : Nat)
    (st : MarkerState) :
    fixpointLoop heap fuel (remaining + 1) st =
      (if ((drainCurrentEphemerons st.nextEphemerons
              { st with nextEphemerons := [] }).2 ||
            decide (0 < (processMarkingWorklist heap 0 fuel
              (drainCurrentEphemerons st.nextEphemerons
                { st with nextEphemerons := [] }).1 0 0).2.2) ||
            !((processMarkingWorklist heap 0 fuel
                (drainCurrentEphemerons st.nextEphemerons
                  { st with nextEphemerons := [] }).1 0 0).1.worklist.isEmpty &&
              (processMarkingWorklist heap 0 fuel
                (drainCurrentEphemerons st.nextEphemerons
                  { st with nextEphemerons := [] }).1 0 0).1.onHold.isEmpty)) then
        fixpointLoop heap fuel remaining
          (processMarkingWorklist heap 0 fuel
            (drainCurrentEphemerons st.nextEphemerons
              { st with nextEphemerons := [] }).1 0 0).1
      else
        ((processMarkingWorklist heap 0 fuel
          (drainCurrentEphemerons st.nextEphemerons
            { st with nextEphemerons := [] }).1 0 0).1, true)) := rfl

theorem fixpointLoop_terminal (heap : HeapModel) (fuel : Nat)
    (ephs : List Ephemeron)
    (hfill : ∀ e ∈ ephs, heap.isFiller e.value = false) :
    ∀ (remaining : Nat) (st : MarkerState),
      ValueMarkedOrQueued ephs st → GreyImpliesQueued heap st →
      (fixpointLoop heap fuel remaining st).2 = true →
      ∀ e ∈ ephs,
        isBlack ((fixpointLoop heap fuel remaining st).1.color e.key) = true →
        isBlack ((fixpointLoop heap fuel remaining st).1.color e.value) = true := by
  intro remaining
  induction remaining with
  | zero =>
    intro st _ _ hflag
    simp [fixpointLoop] at hflag
  | succ remaining ih =>
    intro st hA hB
    rw [fixpointLoop_succ]
    generalize hr1 : drainCurrentEphemerons st.nextEphemerons
      { st with nextEphemerons := [] } = r1
    generalize hr2 : processMarkingWorklist heap 0 fuel r1.1 0 0 = r2
    have hmono1 : ColorMono st r1.1 := by
      have h := drainCurrentEphemerons_mono st.nextEphemerons
        { st with nextEphemerons := [] }
      rw [hr1] at h
      exact h
    have hmono2 : ColorMono r1.1 r2.1 := by
      have h := processMarkingWorklist_mono heap 0 fuel r1.1 0 0
      rw [hr2] at h
      exact h
    have hnext2 : r2.1.nextEphemerons = r1.1.nextEphemerons := by
      have h := processMarkingWorklist_next heap 0 fuel r1.1 0 0
      rw [hr2] at h
      exact h
    have hB2 : GreyImpliesQueued heap r2.1 := by
      have hB1 : GreyImpliesQueued heap { st with nextEphemerons := [] } :=
        fun o hf hg => hB o hf hg
      have h := drainCurrentEphemerons_greyQueued heap st.nextEphemerons _ hB1
      rw [hr1] at h
      have h2 := processMarkingWorklist_greyQueued heap fuel r1.1 0 0 h
      rw [hr2] at h2
      exact h2
    have hA2 : ValueMarkedOrQueued ephs r2.1 := by
      intro e he
      rcases hA e he with hnext | hbg
      · have h := drainCurrentEphemerons_processed st.nextEphemerons
          { st with nextEphemerons := [] } e hnext
        rw [hr1] at h
        rcases h with h | h
        · left
          rw [hnext2]
          exact h
        · right
          exact isBlackOrGrey_mono (hmono2 e.value) h
      · right
        exact isBlackOrGrey_mono (ColorMono.comp hmono1 hmono2 e.value) hbg
    by_cases hcont : (r1.2 || decide (0 < r2.2.2) ||
        !(r2.1.worklist.isEmpty && r2.1.onHold.isEmpty)) = true
    · rw [if_pos hcont]
      exact ih r2.1 hA2 hB2
    · rw [if_neg hcont]
      show (r2.1, true).2 = true → ∀ e ∈ ephs,
        isBlack (r2.1.color e.key) = true → isBlack (r2.1.color e.value) = true
      intro _ e he hkey
      have hflags : r1.2 = false ∧ r2.2.2 = 0 ∧
          r2.1.worklist = [] ∧ r2.1.onHold = [] := by
        simp only [Bool.not_eq_true, Bool.or_eq_false_iff,
          decide_eq_false_iff_not, Nat.not_lt, Nat.le_zero] at hcont
        have hcnot := hcont.2
        have hc : (r2.1.worklist.isEmpty && r2.1.onHold.isEmpty) = true := by
          cases hx : (r2.1.worklist.isEmpty && r2.1.onHold.isEmpty)
          · rw [hx] at hcnot
            simp at hcnot
          · rfl
        simp only [Bool.and_eq_true, List.isEmpty_iff] at hc
        exact ⟨hcont.1.1, hcont.1.2, hc.1, hc.2⟩
      have hdf := drainCurrentEphemerons_false st.nextEphemerons
        { st with nextEphemerons := [] }
      rw [hr1] at hdf
      have hdf := hdf hflags.1
      have hno := processMarkingWorklist_no_objects heap fuel r1.1 0 0
      rw [hr2] at hno
      have hno := hno hflags.2.1
      have hcolor : r2.1.color = st.color := by
        rw [hno, hdf.1]
      rw [hcolor] at hkey ⊢
      have hkeybg : isBlackOrGrey (st.color e.key) = true :=
        isBlackOrGrey_of_isBlack hkey
      have hvne : st.color e.value ≠ Color.White := by
        rcases hA e he with hnext | hbg
        · intro hw
          exact hdf.2 e hnext ⟨hkeybg, hw⟩
        · exact ne_white_of_isBlackOrGrey hbg
      have hvng : st.color e.value ≠ Color.Grey := by
        intro hg
        have hq := hB2 e.value (hfill e he) (by rw [hcolor]; exact hg)
        rw [hflags.2.2.1, hflags.2.2.2] at hq
        simp at hq
      exact isBlack_of_isBlackOrGrey_ne_grey (isBlackOrGrey_of_ne_white hvne) hvng

/-- C1: during the marking fixpoint, `ProcessEphemeron(key, value)` greys and
pushes a White value whenever the key is Black or Grey, and re-enqueues the
pair onto `next_ephemerons` whenever the key is unmarked but the value is
still White; and when `MarkTransitiveClosureUntilFixpoint` terminates
successfully, every ephemeron with a Black key has a Black value.  The
hypotheses are the entry invariants of the fixpoint: every ephemeron is queued
on `next_ephemerons` or already has a marked value, every Grey non-filler
object is still on a worklist, and ephemeron values are not fillers. -/
theorem processEphemeron_fixpoint (heap : HeapModel) (ephs : List Ephemeron)
    (maxIterations fuel : Nat) (st0 : MarkerState)
    (hfill : ∀ e ∈ ephs, heap.isFiller e.value = false)
    (hA : ValueMarkedOrQueued ephs st0) (hB : GreyImpliesQueued heap st0) :
    (∀ (st : MarkerState) (key value : Nat),
        isBlackOrGrey (st.color key) = true → st.color value = Color.White →
        processEphemeron st key value =
          ({ st with color := setColor st.color value Color.Grey,
                     worklist := value :: st.worklist }, true)) ∧
      (∀ (st : MarkerState) (key value : Nat),
        isBlackOrGrey (st.color key) = false → st.color value = Color.White →
        processEphemeron st key value =
          ({ st with nextEphemerons :=
              st.nextEphemerons ++ [⟨key, value⟩] }, false)) ∧
      ((markTransitiveClosureUntilFixpoint heap maxIterations fuel st0).2 = true →
        ∀ e ∈ ephs,
          isBlack ((markTransitiveClosureUntilFixpoint heap maxIterations fuel
            st0).1.color e.key) = true →
          isBlack ((markTransitiveClosureUntilFixpoint heap maxIterations fuel
            st0).1.color e.value) = true) := by
  refine ⟨?_, ?_, ?_⟩
  · intro st key value hk hv
    simp [processEphemeron, hk, hv]
  · intro st key value hk hv
    simp [processEphemeron, hk, hv]
  · intro hflag e he hkey
    exact fixpointLoop_terminal heap fuel ephs hfill maxIterations st0 hA hB
      hflag e he hkey

/-- Witness for C1: a two-object heap with one ephemeron `(1, 2)` whose key is
a grey root; the fixpoint succeeds and both key and value end Black. -/
theorem processEphemeron_fixpoint_witness :
    (∀ e ∈ [(⟨1, 2⟩ : Ephemeron)],
        (⟨[1, 2], fun _ => [], fun _ => false, fun _ => 8⟩ :
          HeapModel).isFiller e.value = false) ∧
      ValueMarkedOrQueued [⟨1, 2⟩]
        ⟨fun o => if o = 1 then Color.Grey else Color.White, [1], [], [⟨1, 2⟩]⟩ ∧
      GreyImpliesQueued ⟨[1, 2], fun _ => [], fun _ => false, fun _ => 8⟩
        ⟨fun o => if o = 1 then Color.Grey else Color.White, [1], [], [⟨1, 2⟩]⟩ ∧
      (markTransitiveClosureUntilFixpoint
        ⟨[1, 2], fun _ => [], fun _ => false, fun _ => 8⟩ 5 8
        ⟨fun o => if o = 1 then Color.Grey else Color.White, [1], [],
          [⟨1, 2⟩]⟩).2 = true ∧
      isBlack ((markTransitiveClosureUntilFixpoint
        ⟨[1, 2], fun _ => [], fun _ => false, fun _ => 8⟩ 5 8
        ⟨fun o => if o = 1 then Color.Grey else Color.White, [1], [],
          [⟨1, 2⟩]⟩).1.color 2) = true := by
  have hfill : ∀ e ∈ [(⟨1, 2⟩ : Ephemeron)],
      (⟨[1, 2], fun _ => [], fun _ => false, fun _ => 8⟩ :
        HeapModel).isFiller e.value = false := by decide
  have hA : ValueMarkedOrQueued [⟨1, 2⟩]
      ⟨fun o => if o = 1 then Color.Grey else Color.White, [1], [], [⟨1, 2⟩]⟩ := by
    intro e he
    left
    simpa using he
  have hB : GreyImpliesQueued ⟨[1, 2], fun _ => [], fun _ => false, fun _ => 8⟩
      ⟨fun o => if o = 1 then Color.Grey else Color.White, [1], [], [⟨1, 2⟩]⟩ := by
    intro o _ hg
    by_cases h1 : o = 1
    · subst h1; simp
    · simp [h1] at hg
  refine ⟨hfill, hA, hB, by decide, ?_⟩
  exact (processEphemeron_fixpoint
      ⟨[1, 2], fun _ => [], fun _ => false, fun _ => 8⟩ [⟨1, 2⟩] 5 8
      ⟨fun o => if o = 1 then Color.Grey else Color.White, [1], [], [⟨1, 2⟩]⟩
      hfill hA hB).2.2 (by decide) ⟨1, 2⟩ (by decide) (by decide)

/-- C4: the ephemeron fixpoint iteration is bounded by
`FLAG_ephemeron_fixpoint_iterations`: with no remaining iteration budget the
loop gives up at once — `false`, state untouched — and whenever
`MarkTransitiveClosureUntilFixpoint` reports `false`,
`MarkTransitiveClosure` completes marking with the linear algorithm
`MarkTransitiveClosureLinear`. -/
theorem ephemeron_fixpoint_gives_up (heap : HeapModel) (maxIterations fuel : Nat)
    (st : MarkerState) :
    (∀ s : MarkerState, fixpointLoop heap fuel 0 s = (s, false)) ∧
      ((markTransitiveClosureUntilFixpoint heap maxIterations fuel st).2 = false →
        markTransitiveClosure heap maxIterations fuel st =
          (markTransitiveClosureLinear heap fuel
            (markTransitiveClosureUntilFixpoint heap maxIterations fuel st).1,
            false)) := by
  constructor
  · intro s
    rfl
  · intro hfalse
    simp [markTransitiveClosure, hfalse]

/-- Witness for C4 at the bound: with `max_iterations = 0` the fixpoint gives
up immediately and the collector runs the linear fallback. -/
theorem ephemeron_fixpoint_gives_up_witness :
    (markTransitiveClosureUntilFixpoint
        ⟨[1, 2], fun _ => [], fun _ => false, fun _ => 8⟩ 0 8
        ⟨fun o => if o = 1 then Color.Grey else Color.White, [1], [],
          [⟨1, 2⟩]⟩).2 = false ∧
      markTransitiveClosure ⟨[1, 2], fun _ => [], fun _ => false, fun _ => 8⟩ 0 8
          ⟨fun o => if o = 1 then Color.Grey else Color.White, [1], [], [⟨1, 2⟩]⟩ =
        (markTransitiveClosureLinear
          ⟨[1, 2], fun _ => [], fun _ => false, fun _ => 8⟩ 8
          (markTransitiveClosureUntilFixpoint
            ⟨[1, 2], fun _ => [], fun _ => false, fun _ => 8⟩ 0 8
            ⟨fun o => if o = 1 then Color.Grey else Color.White, [1], [],
              [⟨1, 2⟩]⟩).1, false) :=
  ⟨rfl, (ephemeron_fixpoint_gives_up
    ⟨[1, 2], fun _ => [], fun _ => false, fun _ => 8⟩ 0 8
    ⟨fun o => if o = 1 then Color.Grey else Color.White, [1], [], [⟨1, 2⟩]⟩).2 rfl⟩

theorem updateSlot_mapWord (h : UpdateHeap) (s : Nat) :
    (updateSlot h s).mapWord = h.mapWord := by
  unfold updateSlot
  cases h.mapWord (h.slotValue s) <;> rfl

theorem updateSlot_inv (h0 h : UpdateHeap) (s : Nat) (hI : UpdateInv h0 h)
    (hok : mapWordTargetOk h0 s = true) :
    UpdateInv h0 (updateSlot h s) ∧ GoodSlot (updateSlot h s) s := by
  obtain ⟨hmw, hsl⟩ := hI
  rcases hsl s with hsame | ⟨t, hfwd, hval⟩
  · cases hm : h.mapWord (h.slotValue s) with
    | map m =>
      have hid : updateSlot h s = h := by unfold updateSlot; rw [hm]
      rw [hid]
      exact ⟨⟨hmw, hsl⟩, by unfold GoodSlot; rw [hm]; rfl⟩
    | forwardingAddress t =>
      have heq : updateSlot h s =
          { h with slotValue := fun x => if x = s then t else h.slotValue x } := by
        unfold updateSlot; rw [hm]
      have hfwd0 : h0.mapWord (h0.slotValue s) = MapWordM.forwardingAddress t := by
        rw [← hsame, ← hmw]; exact hm
      have hnt : (h0.mapWord t).isForwardingAddress = false := by
        unfold mapWordTargetOk at hok
        rw [hfwd0] at hok
        have hok2 : (!(h0.mapWord t).isForwardingAddress) = true := hok
        cases hx : (h0.mapWord t).isForwardingAddress
        · rfl
        · rw [hx] at hok2; cases hok2
      constructor
      · constructor
        · rw [heq]; exact hmw
        · intro s2
          by_cases hs2 : s2 = s
          · subst hs2
            right
            exact ⟨t, hfwd0, by rw [heq]; simp⟩
          · rw [heq]
            simp only [hs2, if_false]
            exact hsl s2
      · unfold GoodSlot
        rw [heq]
        simp only [if_pos rfl]
        show (h.mapWord t).isForwardingAddress = false
        rw [hmw]
        exact hnt
  · have hnt : (h0.mapWord t).isForwardingAddress = false := by
      unfold mapWordTargetOk at hok
      rw [hfwd] at hok
      have hok2 : (!(h0.mapWord t).isForwardingAddress) = true := hok
      cases hx : (h0.mapWord t).isForwardingAddress
      · rfl
      · rw [hx] at hok2; cases hok2
    have hm : h.mapWord (h.slotValue s) = h0.mapWord t := by rw [hval, hmw]
    cases hmt2 : h0.mapWord t with
    | forwardingAddress u => rw [hmt2] at hnt; cases hnt
    | map m =>
      have hid : updateSlot h s = h := by unfold updateSlot; rw [hm, hmt2]
      rw [hid]
      refine ⟨⟨hmw, hsl⟩, ?_⟩
      unfold GoodSlot
      rw [hm, hmt2]
      rfl

theorem updateSlot_good_preserved (h : UpdateHeap) (s s2 : Nat)
    (hg : GoodSlot h s2) : GoodSlot (updateSlot h s) s2 := by
  unfold GoodSlot at hg ⊢
  cases hm : h.mapWord (h.slotValue s) with
  | map m =>
    have hid : updateSlot h s = h := by unfold updateSlot; rw [hm]
    rw [hid]
    exact hg
  | forwardingAddress t =>
    have heq : updateSlot h s =
        { h with slotValue := fun x => if x = s then t else h.slotValue x } := by
      unfold updateSlot; rw [hm]
    rw [heq]
    by_cases hs2 : s2 = s
    · subst hs2
      rw [hm] at hg
      cases hg
    · simp only [hs2, if_false]
      exact hg

theorem updateSlots_inv (h0 : UpdateHeap) (valid : Nat → Bool)
    (slots : List Nat) :
    ∀ h : UpdateHeap, UpdateInv h0 h →
      (∀ s ∈ slots, mapWordTargetOk h0 s = true) →
      UpdateInv h0 (updateSlots valid slots h) := by
  induction slots with
  | nil => intro h hI _; exact hI
  | cons a rest ih =>
    intro h hI hok
    by_cases hv : valid a = true
    · have heq : updateSlots valid (a :: rest) h =
          updateSlots valid rest (updateSlot h a) := by
        unfold updateSlots
        simp [hv]
      rw [heq]
      exact ih _ (updateSlot_inv h0 h a hI (hok a (by simp))).1
        (fun s hs => hok s (by simp [hs]))
    · have heq : updateSlots valid (a :: rest) h = updateSlots valid rest h := by
        unfold updateSlots
        simp [hv]
      rw [heq]
      exact ih h hI (fun s hs => hok s (by simp [hs]))

theorem updateSlots_good_preserved (valid : Nat → Bool) (slots : List Nat) :
    ∀ (h : UpdateHeap) (s2 : Nat), GoodSlot h s2 →
      GoodSlot (updateSlots valid slots h) s2 := by
  induction slots with
  | nil => intro h s2 hg; exact hg
  | cons a rest ih =>
    intro h s2 hg
    by_cases hv : valid a = true
    · have heq : updateSlots valid (a :: rest) h =
          updateSlots valid rest (updateSlot h a) := by
        unfold updateSlots; simp [hv]
      rw [heq]
      exact ih _ s2 (updateSlot_good_preserved h a s2 hg)
    · have heq : updateSlots valid (a :: rest) h = updateSlots valid rest h := by
        unfold updateSlots; simp [hv]
      rw [heq]
      exact ih h s2 hg

theorem updateSlots_establishes (h0 : UpdateHeap) (valid : Nat → Bool)
    (slots : List Nat) :
    ∀ h : UpdateHeap, UpdateInv h0 h →
      (∀ s ∈ slots, mapWordTargetOk h0 s = true) →
      ∀ s ∈ slots, valid s = true → GoodSlot (updateSlots valid slots h) s := by
  induction slots with
  | nil => intro h _ _ s hs; cases hs
  | cons a rest ih =>
    intro h hI hok s hs hv
    rcases List.mem_cons.mp hs with rfl | hmem
    · have heq : updateSlots valid (s :: rest) h =
          updateSlots valid rest (updateSlot h s) := by
        unfold updateSlots; simp [hv]
      rw [heq]
      exact updateSlots_good_preserved valid rest _ s
        (updateSlot_inv h0 h s hI (hok s (by simp))).2
    · by_cases hva : valid a = true
      · have heq : updateSlots valid (a :: rest) h =
            updateSlots valid rest (updateSlot h a) := by
          unfold updateSlots; simp [hva]
        rw [heq]
        exact ih _ (updateSlot_inv h0 h a hI (hok a (by simp))).1
          (fun u hu => hok u (by simp [hu])) s hmem hv
      · have heq : updateSlots valid (a :: rest) h = updateSlots valid rest h := by
          unfold updateSlots; simp [hva]
        rw [heq]
        exact ih h hI (fun u hu => hok u (by simp [hu])) s hmem hv

theorem updateChunk_inv (h0 : UpdateHeap) (valid : Nat → Bool) (c : ChunkM)
    (h : UpdateHeap) (hI : UpdateInv h0 h)
    (hok : ∀ s ∈ chunkSlots c, mapWordTargetOk h0 s = true) :
    UpdateInv h0 (updateUntypedPointersOldToOld valid h c).1 := by
  cases hc : c.oldToOld with
  | none => simp only [updateUntypedPointersOldToOld, hc]; exact hI
  | some slots =>
    simp only [updateUntypedPointersOldToOld, hc]
    exact updateSlots_inv h0 valid slots h hI
      (by rw [show chunkSlots c = slots by unfold chunkSlots; rw [hc]] at hok; exact hok)

theorem updateChunk_good_preserved (valid : Nat → Bool) (c : ChunkM)
    (h : UpdateHeap) (s2 : Nat) (hg : GoodSlot h s2) :
    GoodSlot (updateUntypedPointersOldToOld valid h c).1 s2 := by
  cases hc : c.oldToOld with
  | none => simp only [updateUntypedPointersOldToOld, hc]; exact hg
  | some slots =>
    simp only [updateUntypedPointersOldToOld, hc]
    exact updateSlots_good_preserved valid slots h s2 hg

theorem updateChunk_establishes (h0 : UpdateHeap) (valid : Nat → Bool)
    (c : ChunkM) (h : UpdateHeap) (hI : UpdateInv h0 h)
    (hok : ∀ s ∈ chunkSlots c, mapWordTargetOk h0 s = true)
    (s : Nat) (hs : slotRecorded c s = true) (hv : valid s = true) :
    GoodSlot (updateUntypedPointersOldToOld valid h c).1 s := by
  have hmem : s ∈ chunkSlots c := by
    unfold slotRecorded at hs
    exact of_decide_eq_true hs
  cases hc : c.oldToOld with
  | none =>
    exfalso
    unfold chunkSlots at hmem
    rw [hc] at hmem
    cases hmem
  | some slots =>
    simp only [updateUntypedPointersOldToOld, hc]
    have hmem2 : s ∈ slots := by
      unfold chunkSlots at hmem
      rw [hc] at hmem
      exact hmem
    exact updateSlots_establishes h0 valid slots h hI
      (by rw [show chunkSlots c = slots by unfold chunkSlots; rw [hc]] at hok; exact hok)
      s hmem2 hv

theorem updateChunks_inv (h0 : UpdateHeap) (valid : Nat → Bool) :
    ∀ (chunks : List ChunkM) (h : UpdateHeap), UpdateInv h0 h →
      (∀ c ∈ chunks, ∀ s ∈ chunkSlots c, mapWordTargetOk h0 s = true) →
      UpdateInv h0 (updateChunks valid chunks h).1 := by
  intro chunks
  induction chunks with
  | nil => intro h hI _; exact hI
  | cons c rest ih =>
    intro h hI hok
    exact ih _ (updateChunk_inv h0 valid c h hI (hok c (by simp)))
      (fun c2 hc2 => hok c2 (by simp [hc2]))

theorem updateChunks_good_preserved (valid : Nat → Bool) :
    ∀ (chunks : List ChunkM) (h : UpdateHeap) (s2 : Nat), GoodSlot h s2 →
      GoodSlot (updateChunks valid chunks h).1 s2 := by
  intro chunks
  induction chunks with
  | nil => intro h s2 hg; exact hg
  | cons c rest ih =>
    intro h s2 hg
    exact ih _ s2 (updateChunk_good_preserved valid c h s2 hg)

theorem updateChunks_establishes (h0 : UpdateHeap) (valid : Nat → Bool) :
    ∀ (chunks : List ChunkM) (h : UpdateHeap), UpdateInv h0 h →
      (∀ c ∈ chunks, ∀ s ∈ chunkSlots c, mapWordTargetOk h0 s = true) →
      ∀ c ∈ chunks, ∀ s : Nat, slotRecorded c s = true → valid s = true →
        GoodSlot (updateChunks valid chunks h).1 s := by
  intro chunks
  induction chunks with
  | nil => intro h _ _ c hc; cases hc
  | cons c0 rest ih =>
    intro h hI hok c hc s hs hv
    rcases List.mem_cons.mp hc with rfl | hmem
    · exact updateChunks_good_preserved valid rest _ s
        (updateChunk_establishes h0 valid c h hI (hok c (by simp)) s hs hv)
    · exact ih _ (updateChunk_inv h0 valid c0 h hI (hok c0 (by simp)))
        (fun c2 hc2 => hok c2 (by simp [hc2])) c hmem s hs hv

theorem updateChunks_released (valid : Nat → Bool) :
    ∀ (chunks : List ChunkM) (h : UpdateHeap),
      ∀ c ∈ (updateChunks valid chunks h).2, c.oldToOld = none := by
  intro chunks
  induction chunks with
  | nil => intro h c hc; cases hc
  | cons c0 rest ih =>
    intro h c hc
    have hshape : (updateChunks valid (c0 :: rest) h).2 =
        (updateUntypedPointersOldToOld valid h c0).2 ::
          (updateChunks valid rest
            (updateUntypedPointersOldToOld valid h c0).1).2 := rfl
    rw [hshape] at hc
    rcases List.mem_cons.mp hc with rfl | hmem
    · cases hc0 : c0.oldToOld with
      | none => simp only [updateUntypedPointersOldToOld, hc0]
      | some slots => simp only [updateUntypedPointersOldToOld, hc0]
    · exact ih _ c hmem

/-- C2: after `UpdatePointersAfterEvacuation` — the root walk followed by the
remembered-set items, each of which rewrites every valid recorded OLD_TO_OLD
slot through its referent's forwarding address and then releases the slot
set — no strong slot anywhere reads a forwarding-tagged map word, and every
OLD_TO_OLD slot set is released.  The hypotheses are the phase's entry
invariants: forwarding targets are not themselves forwarded (the
`IsOnEvacuationCandidate` DCHECK), and every slot whose referent moved is
either a root slot or validly recorded in some chunk's OLD_TO_OLD set (spec
invariant 3). -/
theorem updatePointersAfterEvacuation_no_forwarded (h0 : UpdateHeap)
    (rootSlots slotUniverse : List Nat) (valid : Nat → Bool)
    (chunks : List ChunkM)
    (hokRoots : ∀ s ∈ rootSlots, mapWordTargetOk h0 s = true)
    (hokChunks : ∀ c ∈ chunks, ∀ s ∈ chunkSlots c, mapWordTargetOk h0 s = true)
    (hrecorded : ∀ s ∈ slotUniverse,
      (h0.mapWord (h0.slotValue s)).isForwardingAddress = true →
      s ∈ rootSlots ∨ ∃ c ∈ chunks, slotRecorded c s = true ∧ valid s = true) :
    (∀ s ∈ slotUniverse,
        GoodSlot (updatePointersAfterEvacuation rootSlots valid chunks h0).1 s) ∧
      ∀ c ∈ (updatePointersAfterEvacuation rootSlots valid chunks h0).2,
        c.oldToOld = none := by
  have hI0 : UpdateInv h0 h0 := ⟨rfl, fun _ => Or.inl rfl⟩
  have hI1 : UpdateInv h0 (updateSlots (fun _ => true) rootSlots h0) :=
    updateSlots_inv h0 _ rootSlots h0 hI0 hokRoots
  constructor
  · intro s hs
    by_cases hfwd : (h0.mapWord (h0.slotValue s)).isForwardingAddress = true
    · rcases hrecorded s hs hfwd with hroot | ⟨c, hc, hrec, hv⟩
      · have hg : GoodSlot (updateSlots (fun _ => true) rootSlots h0) s :=
          updateSlots_establishes h0 _ rootSlots h0 hI0 hokRoots s hroot rfl
        exact updateChunks_good_preserved valid chunks _ s hg
      · exact updateChunks_establishes h0 valid chunks _ hI1 hokChunks c hc s hrec hv
    · have hIf : UpdateInv h0
          (updatePointersAfterEvacuation rootSlots valid chunks h0).1 :=
        updateChunks_inv h0 valid chunks _ hI1 hokChunks
      obtain ⟨hmw, hsl⟩ := hIf
      rcases hsl s with hsame | ⟨t, hf, _⟩
      · unfold GoodSlot
        rw [hmw, hsame]
        cases hx : (h0.mapWord (h0.slotValue s)).isForwardingAddress
        · rfl
        · exact absurd hx hfwd
      · exfalso
        apply hfwd
        rw [hf]
        rfl
  · exact updateChunks_released valid chunks _

/-- Witness for C2: object 10 is forwarded to 20; slot 0 (a root slot) and
slot 1 (recorded OLD_TO_OLD) both point at 10, slot 2 points at the unmoved
object 30; after the update no slot reads a forwarding word and the chunk's
slot set is released. -/
theorem updatePointersAfterEvacuation_no_forwarded_witness :
    (∀ s ∈ [0],
        mapWordTargetOk
          ⟨fun o => if o = 10 then MapWordM.forwardingAddress 20 else MapWordM.map 0,
            fun s => if s = 0 then 10 else if s = 1 then 10 else 30⟩ s = true) ∧
      (∀ c ∈ [(⟨some [1]⟩ : ChunkM)], ∀ s ∈ chunkSlots c,
        mapWordTargetOk
          ⟨fun o => if o = 10 then MapWordM.forwardingAddress 20 else MapWordM.map 0,
            fun s => if s = 0 then 10 else if s = 1 then 10 else 30⟩ s = true) ∧
      (∀ s ∈ [0, 1, 2],
        ((⟨fun o => if o = 10 then MapWordM.forwardingAddress 20 else MapWordM.map 0,
            fun s => if s = 0 then 10 else if s = 1 then 10 else 30⟩ :
          UpdateHeap).mapWord
          ((⟨fun o => if o = 10 then MapWordM.forwardingAddress 20 else MapWordM.map 0,
              fun s => if s = 0 then 10 else if s = 1 then 10 else 30⟩ :
            UpdateHeap).slotValue s)).isForwardingAddress = true →
        s ∈ [0] ∨ ∃ c ∈ [(⟨some [1]⟩ : ChunkM)],
          slotRecorded c s = true ∧ (fun _ => true) s = true) ∧
      ((∀ s ∈ [0, 1, 2],
          GoodSlot (updatePointersAfterEvacuation [0] (fun _ => true)
            [⟨some [1]⟩]
            ⟨fun o => if o = 10 then MapWordM.forwardingAddress 20 else MapWordM.map 0,
              fun s => if s = 0 then 10 else if s = 1 then 10 else 30⟩).1 s) ∧
        ∀ c ∈ (updatePointersAfterEvacuation [0] (fun _ => true) [⟨some [1]⟩]
            ⟨fun o => if o = 10 then MapWordM.forwardingAddress 20 else MapWordM.map 0,
              fun s => if s = 0 then 10 else if s = 1 then 10 else 30⟩).2,
          c.oldToOld = none) := by
  refine ⟨by decide, by decide, by decide, ?_⟩
  exact updatePointersAfterEvacuation_no_forwarded
    ⟨fun o => if o = 10 then MapWordM.forwardingAddress 20 else MapWordM.map 0,
      fun s => if s = 0 then 10 else if s = 1 then 10 else 30⟩
    [0] [0, 1, 2] (fun _ => true) [⟨some [1]⟩]
    (by decide) (by decide) (by decide)

/-- C3: an evacuation-candidate page whose per-thread allocation fails during
old-to-old evacuation is recovered locally when
`FLAG_crash_on_aborted_evacuation` is unset: the page reaches the sweeper
flagged `COMPACTION_WAS_ABORTED`, with its OLD_TO_NEW / OLD_TO_SHARED slots
removed up to the failing address and re-recorded over the live objects, its
live bytes recomputed from the mark bitmap, and it is not released; the cycle
raises no fatal error. -/
theorem abortedEvacuation_recovers_locally (crash : Bool)
    (recordNew recordShared : Nat → List Nat) (p : AbortPage)
    (failedStart : Nat) (hcrash : crash = false) :
    ∃ q, (evacuateOldToOldPage crash recordNew recordShared p
        (some failedStart)).sweeperSnapshot = some q ∧
      q.compactionAborted = true ∧
      q.oldToNew = p.oldToNew.filter
          (fun a => !(decide (p.pageAddress ≤ a ∧ a < failedStart))) ++
        p.liveObjects.flatMap (fun ob => recordNew ob.1) ∧
      q.oldToShared = p.oldToShared.filter
          (fun a => !(decide (p.pageAddress ≤ a ∧ a < failedStart))) ++
        p.liveObjects.flatMap (fun ob => recordShared ob.1) ∧
      q.liveBytes = sumSizes p.liveObjects ∧
      (evacuateOldToOldPage crash recordNew recordShared p
        (some failedStart)).released = false ∧
      (evacuateOldToOldPage crash recordNew recordShared p
        (some failedStart)).fatal = false := by
  subst hcrash
  exact ⟨_, rfl, rfl, rfl, rfl, rfl, rfl, rfl⟩

/-- Witness for C3 at a concrete page: the copy of the page at `AddPage` time
is flagged aborted, its slots below the failing address 120 are dropped and
re-recorded over the one live object, its live bytes are 16, and the page is
neither released nor fatal. -/
theorem abortedEvacuation_recovers_locally_witness :
    (false = false) ∧
      ∃ q, (evacuateOldToOldPage false (fun a => [a + 1]) (fun _ => [])
          ⟨1, 100, 104, [(120, 16)], [102, 130], [], 999, true, false⟩
          (some 120)).sweeperSnapshot = some q ∧
        q.compactionAborted = true ∧
        q.oldToNew = ([102, 130].filter
            (fun a => !(decide ((100 : Nat) ≤ a ∧ a < 120))) ++
          ([((120 : Nat), (16 : Nat))].flatMap (fun ob => [ob.1 + 1]))) ∧
        q.oldToShared = ([] : List Nat).filter
            (fun a => !(decide ((100 : Nat) ≤ a ∧ a < 120))) ++
          ([((120 : Nat), (16 : Nat))].flatMap (fun _ => ([] : List Nat))) ∧
        q.liveBytes = sumSizes [(120, 16)] ∧
        (evacuateOldToOldPage false (fun a => [a + 1]) (fun _ => [])
          ⟨1, 100, 104, [(120, 16)], [102, 130], [], 999, true, false⟩
          (some 120)).released = false ∧
        (evacuateOldToOldPage false (fun a => [a + 1]) (fun _ => [])
          ⟨1, 100, 104, [(120, 16)], [102, 130], [], 999, true, false⟩
          (some 120)).fatal = false :=
  ⟨rfl, abortedEvacuation_recovers_locally false (fun a => [a + 1]) (fun _ => [])
    ⟨1, 100, 104, [(120, 16)], [102, 130], [], 999, true, false⟩ 120 rfl⟩

/-- C7 counterexample: with `AlwaysPromoteYoung::kNo` (the minor collector's
configuration of the same visitor), an object eligible for promotion whose
old-space allocation fails is recovered by a semispace copy into new space —
no `FatalProcessOutOfMemory` — refuting "for every young-generation object
whose promotion to old space fails because allocation fails, the collector
raises a fatal error rather than recovering". -/
theorem evacuateNewSpaceVisit_promotion_failure_recovered :
    tryEvacuateObjectOld ⟨some 7, none, none⟩ ⟨false, false, true⟩ = none ∧
      evacuateNewSpaceVisit false ⟨some 7, none, none⟩ ⟨false, false, true⟩ =
        (VisitOutcome.copiedToNew 7, true) := by
  exact ⟨rfl, rfl⟩

/-- C7 amended: nursery evacuation is never aborted (no branch of
`EvacuateNewSpaceVisitor::Visit` returns `false`); in the full collector
(`AlwaysPromoteYoung::kYes`, as instantiated by `FullEvacuator`) a failed
promotion allocation is immediately fatal; and in the minor collector a failed
promotion falls back to a semispace copy, which is fatal only when both the
new-space and old-space allocations fail. -/
theorem evacuateNewSpaceVisit_oom_is_fatal (a : NewSpaceAllocators)
    (obj : YoungObject) (hwc : obj.canEvacuateWithoutCopy = false) :
    (∀ apy, (evacuateNewSpaceVisit apy a obj).2 = true) ∧
      (tryEvacuateObjectOld a obj = none →
        evacuateNewSpaceVisit true a obj =
          (VisitOutcome.fatalProcessOutOfMemory
            "MarkCompactCollector: young object promotion failed", true)) ∧
      (tryEvacuateObjectOld a obj = none → a.allocateNew = none →
        a.allocateOld = none → ∀ apy, ∃ msg,
          evacuateNewSpaceVisit apy a obj =
            (VisitOutcome.fatalProcessOutOfMemory msg, true)) := by
  refine ⟨?_, ?_, ?_⟩
  · intro apy
    by_cases hp : apy = true
    · subst hp
      cases htry : tryEvacuateObjectOld a obj with
      | none => simp [evacuateNewSpaceVisit, hwc, htry]
      | some addr => simp [evacuateNewSpaceVisit, hwc, htry]
    · have hp0 : apy = false := by
        cases apy
        · rfl
        · exact absurd rfl hp
      subst hp0
      cases htry : (if obj.shouldBePromoted then tryEvacuateObjectOld a obj
          else none) with
      | none =>
        cases hnew : a.allocateNew with
        | none =>
          cases hold : a.allocateOld with
          | none =>
            simp [evacuateNewSpaceVisit, hwc, htry, hnew, allocateInOldSpace, hold]
          | some addr =>
            simp [evacuateNewSpaceVisit, hwc, htry, hnew, allocateInOldSpace, hold]
        | some addr => simp [evacuateNewSpaceVisit, hwc, htry, hnew]
      | some addr => simp [evacuateNewSpaceVisit, hwc, htry]
  · intro htry
    simp [evacuateNewSpaceVisit, hwc, htry]
  · intro htry hnew hold apy
    by_cases hp : apy = true
    · subst hp
      exact ⟨"MarkCompactCollector: young object promotion failed",
        by simp [evacuateNewSpaceVisit, hwc, htry]⟩
    · have hp0 : apy = false := by
        cases apy
        · rfl
        · exact absurd rfl hp
      subst hp0
      refine ⟨"MarkCompactCollector: semi-space copy, fallback in old gen", ?_⟩
      have htry2 : (if obj.shouldBePromoted then tryEvacuateObjectOld a obj
          else none) = none := by
        cases hsp : obj.shouldBePromoted <;> simp [htry]
      simp [evacuateNewSpaceVisit, hwc, htry2, hnew, allocateInOldSpace, hold]

/-- Witness for the amended C7: a plain young object with every allocation
failing; the full collector dies with the promotion message. -/
theorem evacuateNewSpaceVisit_oom_is_fatal_witness :
    ((⟨false, false, false⟩ : YoungObject).canEvacuateWithoutCopy = false) ∧
      ((∀ apy,
          (evacuateNewSpaceVisit apy ⟨none, none, none⟩ ⟨false, false, false⟩).2 =
            true) ∧
        (tryEvacuateObjectOld ⟨none, none, none⟩ ⟨false, false, false⟩ = none →
          evacuateNewSpaceVisit true ⟨none, none, none⟩ ⟨false, false, false⟩ =
            (VisitOutcome.fatalProcessOutOfMemory
              "MarkCompactCollector: young object promotion failed", true)) ∧
        (tryEvacuateObjectOld ⟨none, none, none⟩ ⟨false, false, false⟩ = none →
          (⟨none, none, none⟩ : NewSpaceAllocators).allocateNew = none →
          (⟨none, none, none⟩ : NewSpaceAllocators).allocateOld = none →
          ∀ apy, ∃ msg,
            evacuateNewSpaceVisit apy ⟨none, none, none⟩ ⟨false, false, false⟩ =
              (VisitOutcome.fatalProcessOutOfMemory msg, true))) :=
  ⟨rfl, evacuateNewSpaceVisit_oom_is_fatal ⟨none, none, none⟩ ⟨false, false, false⟩ rfl⟩

/-- C6 counterexample: a nursery page whose live bytes (80) exceed the
page-promotion threshold (70) is still evacuated object-by-object — mode
`kObjectsNewToOld`, not whole-page promotion — because the heap is in
memory-reducing mode, refuting "the whole-page promotion mode is chosen
exactly when the page's live bytes exceed the page-promotion threshold". -/
theorem shouldMovePage_threshold_not_sufficient :
    newSpacePageEvacuationThreshold ⟨true, true, 70, 100, fun _ => true⟩ < 80 ∧
      newSpacePrePassPage ⟨true, true, 70, 100, fun _ => true⟩ 80
          ⟨0, false, false, false, false, SpaceKind.newSpace⟩ =
        some ⟨0, false, false, false, false, SpaceKind.newSpace⟩ ∧
      computeEvacuationMode ⟨0, false, false, false, false, SpaceKind.newSpace⟩ ≠
        EvacuationMode.kPageNewToOld := by
  refine ⟨by decide, rfl, by decide⟩

/-- C6 amended: in the full collector's `EvacuatePagesInParallel`, a nursery
page (with non-zero live bytes) is promoted whole — evacuation mode
`kPageNewToOld` — if and only if its live bytes exceed the page-promotion
threshold AND the heap is not reducing memory AND the page is not
never-evacuate AND the old generation can expand by the live bytes; and in
that mode no objects are copied, only the page's ownership flips to old space
and its slots are recorded over the live objects. -/
theorem evacuatePagesInParallel_page_promotion (h : PromotionHeapParams)
    (liveBytes : Nat) (p : NurseryPage)
    (hNO : p.flagNewOldPromotion = false) (hNN : p.flagNewNewPromotion = false)
    (hown : p.owner = SpaceKind.newSpace) (hlive : liveBytes ≠ 0) :
    ∃ q, newSpacePrePassPage h liveBytes p = some q ∧
      (computeEvacuationMode q = EvacuationMode.kPageNewToOld ↔
        (newSpacePageEvacuationThreshold h < liveBytes ∧
          h.reduceMemory = false ∧ p.neverEvacuate = false ∧
          h.canExpandOldGeneration liveBytes = true)) ∧
      (computeEvacuationMode q = EvacuationMode.kPageNewToOld →
        q.owner = SpaceKind.oldSpace ∧
          ∀ liveObjects,
            rawEvacuatePageEffects liveObjects (computeEvacuationMode q) =
              ⟨[], liveObjects, false⟩) := by
  by_cases hmv : shouldMovePage h p liveBytes true = true
  · have hmode : computeEvacuationMode (moveNewToOld p) =
        EvacuationMode.kPageNewToOld := by
      simp [computeEvacuationMode, moveNewToOld]
    refine ⟨moveNewToOld p, by simp [newSpacePrePassPage, hlive, hmv], ?_, ?_⟩
    · rw [hmode]
      simp only [shouldMovePage, Bool.and_eq_true, Bool.not_eq_true',
        decide_eq_true_eq, Bool.true_or, Bool.and_true] at hmv
      exact ⟨fun _ => ⟨hmv.1.2, hmv.1.1.1, hmv.1.1.2, hmv.2⟩, fun _ => rfl⟩
    · intro _
      refine ⟨by simp [moveNewToOld], ?_⟩
      intro liveObjects
      rw [hmode]
      rfl
  · have hmode : computeEvacuationMode p = EvacuationMode.kObjectsNewToOld := by
      simp [computeEvacuationMode, hNO, hNN, hown]
    refine ⟨p, by simp [newSpacePrePassPage, hlive, hmv], ?_, ?_⟩
    · rw [hmode]
      constructor
      · intro hcontra; cases hcontra
      · rintro ⟨h1, h2, h3, h4⟩
        exfalso
        exact hmv (by simp [shouldMovePage, h1, h2, h3, h4])
    · intro hm
      rw [hmode] at hm
      cases hm

/-- Witness for the amended C6 at a concrete page and heap: a hot page
(live bytes 80 above threshold 70, no inhibiting condition) is promoted whole
with no copies. -/
theorem evacuatePagesInParallel_page_promotion_witness :
    ((⟨1, false, false, false, false, SpaceKind.newSpace⟩ :
        NurseryPage).flagNewOldPromotion = false) ∧
      (∃ q, newSpacePrePassPage ⟨false, true, 70, 100, fun _ => true⟩ 80
            ⟨1, false, false, false, false, SpaceKind.newSpace⟩ = some q ∧
        (computeEvacuationMode q = EvacuationMode.kPageNewToOld ↔
          (newSpacePageEvacuationThreshold ⟨false, true, 70, 100, fun _ => true⟩ < 80 ∧
            (⟨false, true, 70, 100, fun _ => true⟩ :
                PromotionHeapParams).reduceMemory = false ∧
            (⟨1, false, false, false, false, SpaceKind.newSpace⟩ :
                NurseryPage).neverEvacuate = false ∧
            (⟨false, true, 70, 100, fun _ => true⟩ :
                PromotionHeapParams).canExpandOldGeneration 80 = true)) ∧
        (computeEvacuationMode q = EvacuationMode.kPageNewToOld →
          q.owner = SpaceKind.oldSpace ∧
            ∀ liveObjects,
              rawEvacuatePageEffects liveObjects (computeEvacuationMode q) =
                ⟨[], liveObjects, false⟩)) :=
  ⟨rfl, evacuatePagesInParallel_page_promotion ⟨false, true, 70, 100, fun _ => true⟩
    80 ⟨1, false, false, false, false, SpaceKind.newSpace⟩ rfl rfl rfl (by decide)⟩

theorem startSweepSpaceLoop_swept_mono (pages : List SweepPage) :
    ∀ (u : Bool) (acc : SweepOutcome) (x : SweepPage),
      x ∈ acc.swept → x ∈ (startSweepSpaceLoop pages u acc).swept := by
  induction pages with
  | nil => intro u acc x hx; simpa [startSweepSpaceLoop] using hx
  | cons p rest ih =>
    intro u acc x hx
    by_cases hc : p.isEvacuationCandidate
    · simpa [startSweepSpaceLoop, hc] using ih u acc x hx
    · by_cases hz : p.liveBytes = 0
      · cases u with
        | true =>
          simp only [startSweepSpaceLoop, hc, hz, if_true, if_neg, Bool.false_eq_true,
            if_false]
          exact ih true _ x (by simp [List.mem_append, hx])
        | false =>
          simp only [startSweepSpaceLoop, hc, hz, Bool.false_eq_true, if_false, if_true]
          exact ih true _ x (by simp [List.mem_append, hx])
      · simp only [startSweepSpaceLoop, hc, hz, Bool.false_eq_true, if_false]
        exact ih u _ x (by simp [List.mem_append, hx])

theorem startSweepSpaceLoop_released_true (pages : List SweepPage) :
    ∀ (acc : SweepOutcome),
      (startSweepSpaceLoop pages true acc).released =
        acc.released ++ pages.filter isUnusedPage := by
  induction pages with
  | nil => intro acc; simp [startSweepSpaceLoop]
  | cons p rest ih =>
    intro acc
    by_cases hc : p.isEvacuationCandidate
    · simp [startSweepSpaceLoop, hc, ih, isUnusedPage]
    · by_cases hz : p.liveBytes = 0
      · simp [startSweepSpaceLoop, hc, hz, ih, isUnusedPage]
      · simp [startSweepSpaceLoop, hc, hz, ih, isUnusedPage]

theorem startSweepSpaceLoop_swept_filter_true (pages : List SweepPage) :
    ∀ (acc : SweepOutcome),
      (startSweepSpaceLoop pages true acc).swept.filter isUnusedPage =
        acc.swept.filter isUnusedPage := by
  induction pages with
  | nil => intro acc; simp [startSweepSpaceLoop]
  | cons p rest ih =>
    intro acc
    by_cases hc : p.isEvacuationCandidate
    · simp [startSweepSpaceLoop, hc, ih]
    · by_cases hz : p.liveBytes = 0
      · simp [startSweepSpaceLoop, hc, hz, ih]
      · simp [startSweepSpaceLoop, hc, hz, ih, isUnusedPage]

theorem startSweepSpaceLoop_released_false (pages : List SweepPage) :
    ∀ (acc : SweepOutcome),
      (startSweepSpaceLoop pages false acc).released =
        acc.released ++ (pages.filter isUnusedPage).drop 1 := by
  induction pages with
  | nil => intro acc; simp [startSweepSpaceLoop]
  | cons p rest ih =>
    intro acc
    by_cases hc : p.isEvacuationCandidate
    · simp [startSweepSpaceLoop, hc, ih, isUnusedPage]
    · by_cases hz : p.liveBytes = 0
      · simp [startSweepSpaceLoop, hc, hz, isUnusedPage,
          startSweepSpaceLoop_released_true]
      · simp [startSweepSpaceLoop, hc, hz, ih, isUnusedPage]

theorem startSweepSpaceLoop_swept_filter_false (pages : List SweepPage) :
    ∀ (acc : SweepOutcome),
      (startSweepSpaceLoop pages false acc).swept.filter isUnusedPage =
        acc.swept.filter isUnusedPage ++ (pages.filter isUnusedPage).take 1 := by
  induction pages with
  | nil => intro acc; simp [startSweepSpaceLoop]
  | cons p rest ih =>
    intro acc
    by_cases hc : p.isEvacuationCandidate
    · simp [startSweepSpaceLoop, hc, ih, isUnusedPage]
    · by_cases hz : p.liveBytes = 0
      · have hu : isUnusedPage p = true := by simp [isUnusedPage, hc, hz]
        simp [startSweepSpaceLoop, hc, hz, hu,
          startSweepSpaceLoop_swept_filter_true]
      · simp [startSweepSpaceLoop, hc, hz, ih, isUnusedPage]

theorem startSweepSpaceLoop_mem_swept (pages : List SweepPage) :
    ∀ (u : Bool) (acc : SweepOutcome) (p : SweepPage), p ∈ pages →
      p.isEvacuationCandidate = false → p.liveBytes ≠ 0 →
      p ∈ (startSweepSpaceLoop pages u acc).swept := by
  induction pages with
  | nil => intro u acc p hp; cases hp
  | cons q rest ih =>
    intro u acc p hp hc hz
    rcases List.mem_cons.mp hp with rfl | hmem
    · simp only [startSweepSpaceLoop, hc, Bool.false_eq_true, if_false, hz, if_neg]
      exact startSweepSpaceLoop_swept_mono rest u _ p (by simp)
    · by_cases hqc : q.isEvacuationCandidate
      · simp only [startSweepSpaceLoop, hqc, if_true]
        exact ih u acc p hmem hc hz
      · by_cases hqz : q.liveBytes = 0
        · cases u with
          | true =>
            simp only [startSweepSpaceLoop, hqc, Bool.false_eq_true, if_false, hqz,
              if_true]
            exact ih true _ p hmem hc hz
          | false =>
            simp only [startSweepSpaceLoop, hqc, Bool.false_eq_true, if_false, hqz,
              if_true]
            exact ih true _ p hmem hc hz
        · simp only [startSweepSpaceLoop, hqc, Bool.false_eq_true, if_false, hqz]
          exact ih u _ p hmem hc hz

/-- C9: when `StartSweepSpace` hands a paged space to the sweeper, exactly one
zero-live-byte page — the first encountered that is not an evacuation
candidate — is kept and queued for sweeping, every further such page is
released back to the allocator instead of being queued, and every
non-candidate page with nonzero live bytes is queued. -/
theorem startSweepSpace_keeps_first_unused_page (pages : List SweepPage) :
    (startSweepSpace pages).swept.filter isUnusedPage =
        (pages.filter isUnusedPage).take 1 ∧
      (startSweepSpace pages).released = (pages.filter isUnusedPage).drop 1 ∧
      ∀ p ∈ pages, p.isEvacuationCandidate = false → p.liveBytes ≠ 0 →
        p ∈ (startSweepSpace pages).swept := by
  refine ⟨?_, ?_, ?_⟩
  · simpa [startSweepSpace] using startSweepSpaceLoop_swept_filter_false pages ⟨[], [], 0⟩
  · simpa [startSweepSpace] using startSweepSpaceLoop_released_false pages ⟨[], [], 0⟩
  · intro p hp hc hz
    exact startSweepSpaceLoop_mem_swept pages false ⟨[], [], 0⟩ p hp hc hz

/-- C10: in a non-shared-heap collection, `ClearWeakCollections` keeps every
ephemeron hash-table entry whose key lives in the shared heap unchanged,
regardless of the key's local mark state, and removes exactly the entries with
non-shared keys whose key is neither Black nor Grey. -/
theorem clearWeakCollections_shared_keys_skipped (color : Nat → Color)
    (entries : List EphemeronEntry) (isSharedHeap : Bool)
    (hclient : isSharedHeap = false) :
    (∀ e ∈ entries, e.keyInSharedHeap = true →
        e ∈ clearWeakCollectionsTable isSharedHeap color entries) ∧
      ∀ e ∈ entries, e.keyInSharedHeap = false →
        (e ∈ clearWeakCollectionsTable isSharedHeap color entries ↔
          isBlackOrGrey (color e.key) = true) := by
  subst hclient
  constructor
  · intro e he hsh
    refine List.mem_filter.mpr ⟨he, ?_⟩
    simp [clearWeakCollectionsKeeps, hsh]
  · intro e he hsh
    constructor
    · intro hmem
      have hkeep := (List.mem_filter.mp hmem).2
      by_contra hbg
      simp [clearWeakCollectionsKeeps, hsh, hbg] at hkeep
    · intro hbg
      refine List.mem_filter.mpr ⟨he, ?_⟩
      simp [clearWeakCollectionsKeeps, hsh, hbg]

/-- Witness for C10 at a concrete table: a shared-key entry with a White key is
kept, a non-shared White-keyed entry is removed, a non-shared Black-keyed entry
is kept. -/
theorem clearWeakCollections_shared_keys_skipped_witness :
    (false = false) ∧
      ((∀ e ∈ [(⟨0, 1, true⟩ : EphemeronEntry), ⟨2, 3, false⟩, ⟨4, 5, false⟩],
          e.keyInSharedHeap = true →
          e ∈ clearWeakCollectionsTable false
            (fun o => if o = 4 then Color.Black else Color.White)
            [⟨0, 1, true⟩, ⟨2, 3, false⟩, ⟨4, 5, false⟩]) ∧
        ∀ e ∈ [(⟨0, 1, true⟩ : EphemeronEntry), ⟨2, 3, false⟩, ⟨4, 5, false⟩],
          e.keyInSharedHeap = false →
          (e ∈ clearWeakCollectionsTable false
              (fun o => if o = 4 then Color.Black else Color.White)
              [⟨0, 1, true⟩, ⟨2, 3, false⟩, ⟨4, 5, false⟩] ↔
            isBlackOrGrey ((fun o => if o = 4 then Color.Black else Color.White) e.key) =
              true)) :=
  ⟨rfl, clearWeakCollections_shared_keys_skipped
    (fun o => if o = 4 then Color.Black else Color.White)
    [⟨0, 1, true⟩, ⟨2, 3, false⟩, ⟨4, 5, false⟩] false rfl⟩

end V8MC
